import Mathlib

/-!
# slack-advanced-exporter: the archive rewrite pass and the profile-picture step

A shallow embedding of `cmd/fetch_common.go` (`ProcessZipArchive`,
`processFileWithRetry`, `copyFileToOutput`, `fetchCombined`) and of
`cmd/fetch_profile_pictures.go` (`fetchProfilePics`, `downloadPictures`).

Everything outside the program (the remote service, the disk behind the
destination writer, the clock) is a value `world : σ` that the external calls
read and advance; the calls themselves are the fields of `Env`.  The
destination `zip.Writer` is append-only through its API, so it is the list of
entries created so far, in creation order.  A ghost `trace` records what the
run did (entries visited, sleeps, `ProcessFile` invocations and their
results); it is never read by the program.
-/

namespace SlackExporter

/-! ## Data model -/

/-- Content bytes of an entry or of a response body. -/
abbrev Bytes := List Nat

/-- Compression method `zip.Store`. -/
def Store : Nat := 0

/-- Compression method `zip.Deflate`. -/
def Deflate : Nat := 8

/-- The metadata of `zip.FileHeader` that the export carries: entry name,
modification time (seconds, `0` is the zero time) and compression method. -/
structure FileHeader where
  Name : String
  Modified : Nat
  Method : Nat
deriving DecidableEq, Repr

/-- An `io.Reader` over stored data: reading yields `data`, after which `Read`
returns `err` (`none` stands for `io.EOF`). -/
structure Reader where
  data : Bytes
  err : Option String
deriving DecidableEq, Repr

/-- An entry of the source archive (`*zip.File`): its embedded header and the
result of `file.Open()`. -/
structure ZipFile where
  Header : FileHeader
  Open : Except String Reader

/-- The entry name `file.Name`. -/
def ZipFile.Name (file : ZipFile) : String := file.Header.Name

/-- An entry of the destination archive: header as passed to the writer and the
bytes written to the entry's stream. -/
structure OutEntry where
  Header : FileHeader
  Content : Bytes
deriving DecidableEq, Repr

/-- Ghost events of a run. -/
inductive Event where
  /-- The entry loop of the pass reached the entry `file`. -/
  | visit (file : String)
  /-- The call `time.Sleep(d)`, `d` in nanoseconds. -/
  | sleep (d : Nat)
  /-- The call `op.ProcessFile(file, w, op.ApiToken)` returned `err`. -/
  | invoke (op file : String) (err : Option String)
  /-- The call `processFileWithRetry(file, w, op)` returned `err`. -/
  | retried (op file : String) (err : Option String)
  /-- The call `copyFileToOutput(file, w)` returned `err`. -/
  | copied (file : String) (err : Option String)
deriving DecidableEq, Repr

/-- Decoded JSON values (`interface{}` as produced by `encoding/json`).  The
decoder is used without `UseNumber`, so a number is the `float64` nearest to
its literal, kept here by its IEEE 754 bit pattern: the literal of the source
text is not part of the decoded value. -/
inductive JSON where
  | null
  | bool (b : Bool)
  | num (bits : Nat)
  | str (s : String)
  | arr (items : List JSON)
  | obj (fields : List (String × JSON))

/-- A decoded JSON object, `map[string]interface{}`, as an association list. -/
abbrev Obj := List (String × JSON)

/-- An HTTP response: status code and body. -/
structure Response where
  StatusCode : Nat
  Body : Reader

/-- The external calls of the program.  Each one reads the world and returns
the world after the call. -/
structure Env (σ : Type) where
  /-- Effect of `time.Sleep(d)` on the world. -/
  sleep : Nat → σ → σ
  /-- Error, if any, of closing the stream of the entry created before, which
  `w.CreateHeader` does first (`w.prepare`): the pending data of that entry
  and its data descriptor go to the output file.  When no entry is open there
  is nothing to close and the real call does not fail. -/
  closeLast : σ → Option String × σ
  /-- Error, if any, of writing the local header of a new entry (an error of
  the output file, or a name longer than 65535 bytes), which `w.CreateHeader`
  does after it has listed the entry in the directory of the writer. -/
  writeHeader : FileHeader → σ → Option String × σ
  /-- Writing bytes to the stream of the entry created last: `none` when all
  bytes were written, `some (n, e)` when the write failed with `e` after `n`
  bytes. -/
  write : Bytes → σ → Option (Nat × String) × σ
  /-- Error, if any, of `http.NewRequest("GET", url, nil)`. -/
  newRequest : String → Option String
  /-- The call `httpClient.Do(req)` for the given URL. -/
  httpDo : String → σ → Except String Response × σ
  /-- The call `json.NewDecoder(input).Decode(&data)` with
  `data []map[string]interface{}`: the Go values decoded from the text, or the
  error (malformed text, a document that is not an array of objects, a number
  outside `float64`).  A `null` element decodes to a nil map, written `none`. -/
  decode : Reader → Except String (List (Option Obj))
  /-- The bytes `json.Encoder` with indent `"    "` produces for the decoded
  values. -/
  encode : List (Option Obj) → Bytes

/-- State threaded through every call: the world, the destination writer and
the ghost trace. -/
structure St (σ : Type) where
  world : σ
  w : List OutEntry
  trace : List Event

/-- What one call of an operation's `ProcessFile` did: the entries it appended
to the destination writer, the world after the call and the error returned. -/
structure Effect (σ : Type) where
  written : List OutEntry
  world : σ
  err : Option String

/-- The struct `FetchOperation`.  `TargetFiles` is the `map[string]bool`, as an
association list; `ApiRateLimit` is in nanoseconds. -/
structure FetchOperation (σ : Type) where
  Name : String
  ApiToken : String
  ProcessFile : ZipFile → String → σ → Effect σ
  TargetFiles : List (String × Bool)
  ApiRateLimit : Nat

/-! ## `fetch_common.go` -/

/-- The constant `time.Second`, in nanoseconds. -/
def Second : Nat := 1000000000

/-- The constant `time.Millisecond`, in nanoseconds. -/
def Millisecond : Nat := 1000000

/-- The call `time.Sleep(d)`. -/
def timeSleep {σ : Type} (env : Env σ) (d : Nat) (st : St σ) : St σ :=
  { st with world := env.sleep d st.world, trace := st.trace ++ [Event.sleep d] }

/-- Local `maxRetries` of `processFileWithRetry`. -/
def maxRetries : Nat := 3

/-- Local `baseDelay` of `processFileWithRetry`. -/
def baseDelay : Nat := Second

/-- Formatting of an `error` value with `%v`. -/
def fmtErr : Option String → String
  | none => "<nil>"
  | some e => e

/-- The `for attempt := 0; attempt < maxRetries; attempt++` loop of
`processFileWithRetry` together with the final `return`; the first argument is
`maxRetries - attempt`.  The shift `1<<uint(attempt)` is at most `4`, so the
`int64` product does not wrap. -/
def retryLoop {σ : Type} (env : Env σ) (file : ZipFile) (op : FetchOperation σ) :
    Nat → Nat → Option String → St σ → Option String × St σ
  | 0, _, lastErr, st =>
    (some ("failed after " ++ toString maxRetries ++ " attempts: " ++ fmtErr lastErr), st)
  | n + 1, attempt, _, st =>
    let st1 := if attempt > 0 then timeSleep env (baseDelay * (1 <<< attempt)) st else st
    let r := op.ProcessFile file op.ApiToken st1.world
    let st2 : St σ :=
      { world := r.world
        w := st1.w ++ r.written
        trace := st1.trace ++ [Event.invoke op.Name file.Name r.err] }
    match r.err with
    | some err => retryLoop env file op n (attempt + 1) (some err) st2
    | none => (none, st2)

/-- Function `processFileWithRetry`. -/
def processFileWithRetry {σ : Type} (env : Env σ) (file : ZipFile) (op : FetchOperation σ)
    (st : St σ) : Option String × St σ :=
  retryLoop env file op maxRetries 0 none st

/-- The call `strings.HasPrefix(s, p)`. -/
def hasPrefix (s p : String) : Bool := p.data.isPrefixOf s.data

/-- The call `strings.HasSuffix(s, p)`. -/
def hasSuffix (s p : String) : Bool := p.data.reverse.isPrefixOf s.data.reverse

/-- The test `strings.HasSuffix(fh.Name, "/")` by which `zip.Writer` takes an
entry for a directory. -/
def isDir (name : String) : Bool := hasSuffix name "/"

/-- The header as `w.CreateHeader` lists it: the method of a directory entry
is set to Store. -/
def createdHeader (h : FileHeader) : FileHeader :=
  if isDir h.Name then { h with Method := Store } else h

/-- The call `w.CreateHeader(&header)` of `archive/zip`.  The stream of the
entry created before is closed first; an error there returns before anything
is added.  For an entry that is not a directory a compressor must be
registered for the method (Store and Deflate are), else `zip.ErrAlgorithm` is
returned.  Then the entry is appended to the directory of the writer, with no
content yet, and its local header is written: an error of that write returns
with the entry already listed.  (The check for a header pointer already used
as first entry does not apply: every call here passes a fresh header.) -/
def wCreateHeader {σ : Type} (env : Env σ) (h : FileHeader) (st : St σ) : Option String × St σ :=
  match env.closeLast st.world with
  | (some e, world) => (some e, { st with world := world })
  | (none, world) =>
    if !isDir h.Name && h.Method != Store && h.Method != Deflate then
      (some "zip: unsupported compression algorithm", { st with world := world })
    else
      match env.writeHeader (createdHeader h) world with
      | (some e, world1) =>
        (some e, { st with world := world1, w := st.w ++ [{ Header := createdHeader h, Content := [] }] })
      | (none, world1) =>
        (none, { st with world := world1, w := st.w ++ [{ Header := createdHeader h, Content := [] }] })

/-- The call `w.Create(name)`, which is `CreateHeader` with
`&FileHeader{Name: name, Method: Deflate}`. -/
def wCreate {σ : Type} (env : Env σ) (name : String) (st : St σ) : Option String × St σ :=
  wCreateHeader env { Name := name, Modified := 0, Method := Deflate } st

/-- Appends bytes to the content of the entry created last. -/
def appendLast : List OutEntry → Bytes → List OutEntry
  | [], _ => []
  | e :: [], b => [{ e with Content := e.Content ++ b }]
  | e :: e2 :: es, b => e :: appendLast (e2 :: es) b

/-- Whether the entry created last is a directory. -/
def lastIsDir (w : List OutEntry) : Bool :=
  match w.getLast? with
  | some e => isDir e.Header.Name
  | none => false

/-- A `Write` on the stream returned by the last `Create`.  The stream of a
directory entry takes no bytes: it accepts an empty write and answers any
other with an error. -/
def wWrite {σ : Type} (env : Env σ) (b : Bytes) (st : St σ) : Option String × St σ :=
  if lastIsDir st.w then
    if b.isEmpty then (none, st) else (some "zip: write to directory", st)
  else
    match env.write b st.world with
    | (some (n, e), world) => (some e, { st with world := world, w := appendLast st.w (b.take n) })
    | (none, world) => (none, { st with world := world, w := appendLast st.w b })

/-- The call `io.Copy(dst, src)` with `dst` the stream returned by the last
`Create`: the data read is written, a write error or else the reader's error
is returned.  When the source yields no data nothing is written. -/
def ioCopy {σ : Type} (env : Env σ) (src : Reader) (st : St σ) : Option String × St σ :=
  if src.data.isEmpty then (src.err, st)
  else
    match wWrite env src.data st with
    | (some e, st1) => (some e, st1)
    | (none, st1) => (src.err, st1)

/-- Function `copyFileToOutput`. -/
def copyFileToOutput {σ : Type} (env : Env σ) (file : ZipFile) (st : St σ) :
    Option String × St σ :=
  match file.Open with
  | Except.error e => (some ("failed to open input file: " ++ e), st)
  | Except.ok reader =>
    match wCreate env file.Name st with
    | (some e, st1) => (some ("failed to create output file: " ++ e), st1)
    | (none, st1) =>
      match ioCopy env reader st1 with
      | (some e, st2) => (some ("failed to copy file contents: " ++ e), st2)
      | (none, st2) => (none, st2)

/-- State of the pass of `ProcessZipArchive`: the threaded state and the locals
`processingErrors` and `processedFiles` (the names mapped to `true`). -/
structure Pass (σ : Type) where
  st : St σ
  processingErrors : List String
  processedFiles : List String

/-- Appends a ghost event. -/
def logEvent {σ : Type} (e : Event) (st : St σ) : St σ :=
  { st with trace := st.trace ++ [e] }

/-- The index expression `op.TargetFiles[name]` on the `map[string]bool`. -/
def targetLookup (m : List (String × Bool)) (name : String) : Bool :=
  (m.lookup name).getD false

/-- The loop `for _, op := range ops` of `ProcessZipArchive` for one entry. -/
def opsLoop {σ : Type} (env : Env σ) (file : ZipFile) :
    List (FetchOperation σ) → Pass σ → Pass σ
  | [], p => p
  | op :: ops, p =>
    if op.TargetFiles.length > 0 && !targetLookup op.TargetFiles file.Name then
      opsLoop env file ops p
    else if p.processedFiles.contains file.Name then
      opsLoop env file ops p
    else
      match processFileWithRetry env file op p.st with
      | (some err, st1) =>
        opsLoop env file ops
          { p with
            st := logEvent (Event.retried op.Name file.Name (some err)) st1
            processingErrors := p.processingErrors ++
              ["[" ++ op.Name ++ "] Failed processing " ++ file.Name ++ ": " ++ err] }
      | (none, st1) =>
        opsLoop env file ops
          { p with
            st := timeSleep env op.ApiRateLimit (logEvent (Event.retried op.Name file.Name none) st1)
            processedFiles := file.Name :: p.processedFiles }

/-- Body of the loop `for _, file := range r.File` of `ProcessZipArchive`. -/
def fileStep {σ : Type} (env : Env σ) (ops : List (FetchOperation σ)) (file : ZipFile)
    (p : Pass σ) : Pass σ :=
  let p1 := opsLoop env file ops { p with st := logEvent (Event.visit file.Name) p.st }
  if !p1.processedFiles.contains file.Name then
    match copyFileToOutput env file p1.st with
    | (some err, st1) =>
      { p1 with
        st := logEvent (Event.copied file.Name (some err)) st1
        processingErrors := p1.processingErrors ++ ["Failed copying " ++ file.Name ++ ": " ++ err] }
    | (none, st1) => { p1 with st := logEvent (Event.copied file.Name none) st1 }
  else p1

/-- The loop `for _, file := range r.File` of `ProcessZipArchive`. -/
def filesLoop {σ : Type} (env : Env σ) (ops : List (FetchOperation σ)) :
    List ZipFile → Pass σ → Pass σ
  | [], p => p
  | file :: files, p => filesLoop env ops files (fileStep env ops file p)

/-- The final `if len(processingErrors) > 0` of `ProcessZipArchive`. -/
def aggregate (processingErrors : List String) : Option String :=
  if processingErrors.length > 0 then
    some ("encountered " ++ toString processingErrors.length ++ " errors:\n" ++
      "\n".intercalate processingErrors)
  else none

/-- Function `ProcessZipArchive`.  `input` is the result of
`zip.OpenReader(inputArchive)` (the entries `r.File`), `output` the error, if
any, of `os.Create(outputArchive)`.  Returns the error and the final state. -/
def ProcessZipArchive {σ : Type} (env : Env σ) (input : Except String (List ZipFile))
    (output : Option String) (ops : List (FetchOperation σ)) (world : σ) :
    Option String × St σ :=
  match input with
  | Except.error e => (some ("input archive error: " ++ e), { world := world, w := [], trace := [] })
  | Except.ok files =>
    match output with
    | some e => (some ("output archive error: " ++ e), { world := world, w := [], trace := [] })
    | none =>
      let p := filesLoop env ops files
        { st := { world := world, w := [], trace := [] }, processingErrors := [], processedFiles := [] }
      (aggregate p.processingErrors, p.st)

/-- Function `processProfilePics`, a placeholder. -/
def processProfilePics {σ : Type} (_file : ZipFile) (_token : String) (world : σ) : Effect σ :=
  { written := [], world := world, err := some "processProfilePics not implemented" }

/-- Function `processAttachment`, a placeholder. -/
def processAttachment {σ : Type} (_file : ZipFile) (_token : String) (world : σ) : Effect σ :=
  { written := [], world := world, err := some "processAttachment not implemented" }

/-- The operations registered by `fetchCombined`; the two tokens are the
package variables `emailsApiToken` and `attachmentsApiToken`. -/
def fetchCombinedOps {σ : Type} (emailsApiToken attachmentsApiToken : String) :
    List (FetchOperation σ) :=
  [ { Name := "emails"
      ApiToken := emailsApiToken
      TargetFiles := [("users.json", true)]
      ProcessFile := fun _ _ world => { written := [], world := world, err := none }
      ApiRateLimit := Second },
    { Name := "profile-pics"
      ApiToken := "NA"
      TargetFiles := [("users.json", true)]
      ProcessFile := fun file token world => processProfilePics file token world
      ApiRateLimit := Second * 2 },
    { Name := "attachments"
      ApiToken := attachmentsApiToken
      TargetFiles := []
      ProcessFile := fun file token world => processAttachment file token world
      ApiRateLimit := Millisecond * 500 } ]

/-- Function `fetchCombined`. -/
def fetchCombined {σ : Type} (env : Env σ) (input : Except String (List ZipFile))
    (output : Option String) (emailsApiToken attachmentsApiToken : String) (world : σ) :
    Option String × St σ :=
  ProcessZipArchive env input output (fetchCombinedOps emailsApiToken attachmentsApiToken) world

/-! ## `fetch_profile_pictures.go` -/

/-- Splitting at every occurrence of a one-character separator, as
`strings.Split(s, sep)` does; the result is never empty. -/
def splitChars (sep : Char) : List Char → List (List Char)
  | [] => [[]]
  | c :: cs =>
    if c = sep then [] :: splitChars sep cs
    else
      match splitChars sep cs with
      | [] => [[c]]
      | part :: parts => (c :: part) :: parts

/-- The expression `parts[len(parts)-1]` for `parts := strings.Split(s, ".")`. -/
def lastPart (s : String) : String := String.mk ((splitChars '.' s.data).getLastD [])

/-- Reading a key of a `map[string]interface{}` that may be nil. -/
def mapGet (m : Option Obj) (k : String) : Option JSON :=
  match m with
  | none => none
  | some fields => fields.lookup k

/-- The assignment `m[k] = v`. -/
def mapSet : Obj → String → JSON → Obj
  | [], k, v => [(k, v)]
  | (k1, v1) :: fields, k, v =>
    if k1 = k then (k, v) :: fields else (k1, v1) :: mapSet fields k v

/-- The trusted origin of profile pictures. -/
def avatarPrefix : String := "https://avatars.slack-edge.com/"

/-- Body of the loop `for _, user := range data` of `downloadPictures`: the
record after the iteration (the `profile` map is shared with the record, so the
assignment to `profile["image_path"]` shows in it) and the state.  The
`log.Printf` lines are left out. -/
def userStep {σ : Type} (env : Env σ) (user : Option Obj) (st : St σ) : Option Obj × St σ :=
  match mapGet user "id" with
  | some (JSON.str userid) =>
    match mapGet user "profile" with
    | some (JSON.obj profile) =>
      match profile.lookup "image_original" with
      | some (JSON.str image_url) =>
        if hasPrefix image_url avatarPrefix &&
            (hasSuffix image_url ".jpg" || hasSuffix image_url ".png") then
          let extension := "." ++ lastPart image_url
          match env.newRequest image_url with
          | some _ => (user, st)
          | none =>
            match env.httpDo image_url st.world with
            | (Except.error _, world1) => (user, { st with world := world1 })
            | (Except.ok response, world1) =>
              let st1 : St σ := { st with world := world1 }
              if response.StatusCode != 200 then (user, st1)
              else
                let picFileName := "profile_pictures/" ++ userid ++ extension
                let user1 := user.map fun fields =>
                  mapSet fields "profile" (JSON.obj (mapSet profile "image_path" (JSON.str picFileName)))
                match wCreate env picFileName st1 with
                | (some _, st2) => (user1, st2)
                | (none, st2) => (user1, (ioCopy env response.Body st2).2)
        else (user, st)
      | _ => (user, st)
    | _ => (user, st)
  | _ => (user, st)

/-- The loop `for _, user := range data` of `downloadPictures`. -/
def usersLoop {σ : Type} (env : Env σ) : List (Option Obj) → St σ → List (Option Obj) × St σ
  | [], st => ([], st)
  | user :: users, st =>
    let r := userStep env user st
    let rs := usersLoop env users r.2
    (r.1 :: rs.1, rs.2)

/-- Function `downloadPictures`. -/
def downloadPictures {σ : Type} (env : Env σ) (input : Reader) (st : St σ) :
    Option String × St σ :=
  match env.decode input with
  | Except.error e => (some e, st)
  | Except.ok data =>
    let r := usersLoop env data st
    match wCreate env "users.json" r.2 with
    | (some _, st1) => (some "Failed to write users.json back to archive", st1)
    | (none, st1) => wWrite env (env.encode r.1) st1

/-- The loop `for _, file := range r.File` of `fetchProfilePics`; the result
`some 1` stands for `os.Exit(1)`. -/
def picsLoop {σ : Type} (env : Env σ) : List ZipFile → St σ → Option Nat × St σ
  | [], st => (none, st)
  | file :: files, st =>
    match file.Open with
    | Except.error _ => (some 1, st)
    | Except.ok inReader =>
      if file.Name = "users.json" then
        match downloadPictures env inReader st with
        | (some _, st1) => (some 1, st1)
        | (none, st1) => picsLoop env files st1
      else
        match wCreateHeader env file.Header st with
        | (some _, st1) => (some 1, st1)
        | (none, st1) =>
          match ioCopy env inReader st1 with
          | (some _, st2) => (some 1, st2)
          | (none, st2) => picsLoop env files st2

/-- Function `fetchProfilePics`; `input` and `output` are as for
`ProcessZipArchive`.  The error of the final `w.Close()` is only printed. -/
def fetchProfilePics {σ : Type} (env : Env σ) (input : Except String (List ZipFile))
    (output : Option String) (world : σ) : Option Nat × St σ :=
  match input with
  | Except.error _ => (some 1, { world := world, w := [], trace := [] })
  | Except.ok files =>
    match output with
    | some _ => (some 1, { world := world, w := [], trace := [] })
    | none => picsLoop env files { world := world, w := [], trace := [] }

/-! ## Reading a run -/

/-- Sum of the durations of the sleeps in a trace. -/
def totalSleep : List Event → Nat
  | [] => 0
  | Event.sleep d :: es => d + totalSleep es
  | _ :: es => totalSleep es

/-- The `ProcessFile` invocations recorded in a trace, by their results. -/
def invocations : List Event → List (Option String)
  | [] => []
  | Event.invoke _ _ err :: es => err :: invocations es
  | _ :: es => invocations es

/-- The entries reached by the entry loop, in order. -/
def visits : List Event → List String
  | [] => []
  | Event.visit file :: es => file :: visits es
  | _ :: es => visits es

/-- The calls of `processFileWithRetry` recorded in a trace: operation name,
entry name and result. -/
def dispatches : List Event → List (String × String × Option String)
  | [] => []
  | Event.retried op file err :: es => (op, file, err) :: dispatches es
  | _ :: es => dispatches es

/-- The descriptor that `ProcessZipArchive` formats for an event that records a
failure: an operation that exhausted its retries or a verbatim copy that
failed. -/
def descriptor : Event → Option String
  | Event.retried op file (some err) =>
    some ("[" ++ op ++ "] Failed processing " ++ file ++ ": " ++ err)
  | Event.copied file (some err) => some ("Failed copying " ++ file ++ ": " ++ err)
  | _ => none

/-- The descriptors of the failures recorded in a trace, in order of occurrence. -/
def failures (t : List Event) : List String := t.filterMap descriptor

/-- Events of the retry executor: sleeps and `ProcessFile` invocations. -/
def isRetryEvent : Event → Bool
  | Event.sleep _ => true
  | Event.invoke _ _ _ => true
  | _ => false

/-- The test of `ProcessZipArchive` that an operation targets an entry name: the
negation of `len(op.TargetFiles) > 0 && !op.TargetFiles[name]`. -/
def targets {σ : Type} (op : FetchOperation σ) (name : String) : Bool :=
  !(decide (op.TargetFiles.length > 0) && !targetLookup op.TargetFiles name)

/-- Number of entries of the destination with the given name. -/
def nameCount (name : String) (w : List OutEntry) : Nat :=
  (w.map (fun e => e.Header.Name)).count name

/-! ## Concrete inputs -/

/-- An environment over a trivial world in which every write succeeds and the
network is unreachable. -/
def quietEnv : Env Unit :=
  { sleep := fun _ s => s
    closeLast := fun s => (none, s)
    writeHeader := fun _ s => (none, s)
    write := fun _ s => (none, s)
    newRequest := fun _ => none
    httpDo := fun _ s => (Except.error "no route to host", s)
    decode := fun _ => Except.ok []
    encode := fun _ => [] }

/-- The initial state of a run over the trivial world. -/
def emptySt : St Unit := { world := (), w := [], trace := [] }

/-- A source entry `users.json`, stored uncompressed. -/
def usersFile : ZipFile :=
  { Header := { Name := "users.json", Modified := 1700000000, Method := Store }
    Open := Except.ok { data := [91, 93], err := none } }

/-- A source entry `channels.json`, stored uncompressed. -/
def channelsFile : ZipFile :=
  { Header := { Name := "channels.json", Modified := 1700000000, Method := Store }
    Open := Except.ok { data := [91, 93], err := none } }

/-- The `attachments` operation as registered by `fetchCombined`. -/
def attachmentsOp : FetchOperation Unit :=
  { Name := "attachments"
    ApiToken := ""
    TargetFiles := []
    ProcessFile := fun file token world => processAttachment file token world
    ApiRateLimit := Millisecond * 500 }

/-- The `profile-pics` operation as registered by `fetchCombined`. -/
def profilePicsOp : FetchOperation Unit :=
  { Name := "profile-pics"
    ApiToken := "NA"
    TargetFiles := [("users.json", true)]
    ProcessFile := fun file token world => processProfilePics file token world
    ApiRateLimit := Second * 2 }

/-- The operations registered by `fetchCombined`, with empty tokens. -/
def registeredOps : List (FetchOperation Unit) := fetchCombinedOps "" ""

/-- The initial state of the pass over the trivial world. -/
def emptyPass : Pass Unit := { st := emptySt, processingErrors := [], processedFiles := [] }

/-- An operation that creates the entry under its name on the destination and
then fails. -/
def flakyRewriteOp : FetchOperation Unit :=
  { Name := "rewrite"
    ApiToken := ""
    TargetFiles := [("users.json", true)]
    ProcessFile := fun file _ world =>
      { written := [{ Header := { Name := file.Name, Modified := 0, Method := Deflate }, Content := [] }]
        world := world
        err := some "connection reset by peer" }
    ApiRateLimit := Second }

/-- An operation that writes the entry under its name and succeeds. -/
def rewriteOp : FetchOperation Unit :=
  { Name := "rewrite"
    ApiToken := ""
    TargetFiles := [("users.json", true)]
    ProcessFile := fun file _ world =>
      { written := [{ Header := { Name := file.Name, Modified := 0, Method := Deflate },
                      Content := [91, 93] }]
        world := world
        err := none }
    ApiRateLimit := Second }

/-- The URL of the profile picture of user `U1`. -/
def u1Url : String := "https://avatars.slack-edge.com/U1.jpg"

/-- The `profile` object of user `U1`. -/
def u1Profile : Obj := [("image_original", JSON.str u1Url)]

/-- The record of user `U1`, with a field unknown to the program. -/
def u1Record : Obj :=
  [("id", JSON.str "U1"), ("team_id", JSON.str "T1"), ("profile", JSON.obj u1Profile)]

/-- The text of a `users.json` document that holds the record of `U1`, as
bytes. -/
def u1Document : Bytes :=
  ("[\x7b\"id\":\"U1\",\"team_id\":\"T1\",\"profile\":" ++
    "\x7b\"image_original\":\"https://avatars.slack-edge.com/U1.jpg\"\x7d\x7d]").data.map Char.toNat

/-- The entry stream of `users.json` handed to `downloadPictures`. -/
def usersReader : Reader := { data := u1Document, err := none }

/-- A source entry `users.json` with the document of `U1`. -/
def u1UsersFile : ZipFile :=
  { Header := { Name := "users.json", Modified := 1700000000, Method := Deflate }
    Open := Except.ok usersReader }

/-- The decoder on the document of `U1`; any other text counts as malformed. -/
def decodeU1 (input : Reader) : Except String (List (Option Obj)) :=
  if input.data = u1Document then Except.ok [some u1Record]
  else Except.error "invalid character looking for beginning of value"

/-- A response with status 200 and a three-byte body. -/
def okResponse : Response := { StatusCode := 200, Body := { data := [255, 216, 255], err := none } }

/-- An environment for the document of `U1` in which every download answers
200 and every write succeeds. -/
def pictureEnv : Env Unit :=
  { quietEnv with
    httpDo := fun _ s => (Except.ok okResponse, s)
    decode := decodeU1 }

/-- An environment like `pictureEnv` over a world that counts the calls of
`w.CreateHeader` so far: closing the entry before fails, for want of space on
the disk, in the second call and in no other, and every other write succeeds. -/
def flakyDiskEnv : Env Nat :=
  { sleep := fun _ n => n
    closeLast := fun n =>
      if n = 1 then (some "write: no space left on device", n + 1) else (none, n + 1)
    writeHeader := fun _ n => (none, n)
    write := fun _ n => (none, n)
    newRequest := fun _ => none
    httpDo := fun _ n => (Except.ok okResponse, n)
    decode := decodeU1
    encode := fun _ => [] }

/-- The record of user `U1` after the record loop has set `image_path`. -/
def u1RecordWithPath : Obj :=
  [("id", JSON.str "U1"), ("team_id", JSON.str "T1"),
   ("profile", JSON.obj [("image_original", JSON.str u1Url),
                         ("image_path", JSON.str "profile_pictures/U1.jpg")])]

/-- An operation over the counting world that fails with a timeout in its first
two invocations and succeeds from the third on. -/
def thirdTimeOp : FetchOperation Nat :=
  { Name := "emails"
    ApiToken := ""
    TargetFiles := [("users.json", true)]
    ProcessFile := fun _ _ n =>
      { written := [], world := n + 1, err := if n < 2 then some "timeout" else none }
    ApiRateLimit := Second }

/-- The initial state of a run over the counting world. -/
def freshDiskSt : St Nat := { world := 0, w := [], trace := [] }

/-! ## Theorems -/


theorem totalSleep_append (a b : List Event) : totalSleep (a ++ b) = totalSleep a + totalSleep b := by
  induction a with
  | nil => simp [totalSleep]
  | cons e es ih => cases e <;> simp [totalSleep, ih]; omega

theorem invocations_append (a b : List Event) : invocations (a ++ b) = invocations a ++ invocations b := by
  induction a with
  | nil => simp [invocations]
  | cons e es ih => cases e <;> simp [invocations, ih]

theorem visits_append (a b : List Event) : visits (a ++ b) = visits a ++ visits b := by
  induction a with
  | nil => simp [visits]
  | cons e es ih => cases e <;> simp [visits, ih]

theorem dispatches_append (a b : List Event) :
    dispatches (a ++ b) = dispatches a ++ dispatches b := by
  induction a with
  | nil => simp [dispatches]
  | cons e es ih => cases e <;> simp [dispatches, ih]

theorem failures_append (a b : List Event) : failures (a ++ b) = failures a ++ failures b := by
  simp [failures, List.filterMap_append]

theorem visits_of_retryEvents (t : List Event) (h : ∀ e ∈ t, isRetryEvent e = true) :
    visits t = [] := by
  induction t with
  | nil => rfl
  | cons e es ih =>
    have he := h e (by simp)
    have hes := ih (fun x hx => h x (by simp [hx]))
    cases e <;> simp_all [visits, isRetryEvent]

theorem dispatches_of_retryEvents (t : List Event) (h : ∀ e ∈ t, isRetryEvent e = true) :
    dispatches t = [] := by
  induction t with
  | nil => rfl
  | cons e es ih =>
    have he := h e (by simp)
    have hes := ih (fun x hx => h x (by simp [hx]))
    cases e <;> simp_all [dispatches, isRetryEvent]

theorem failures_of_retryEvents (t : List Event) (h : ∀ e ∈ t, isRetryEvent e = true) :
    failures t = [] := by
  induction t with
  | nil => rfl
  | cons e es ih =>
    have he := h e (by simp)
    have hes := ih (fun x hx => h x (by simp [hx]))
    cases e <;> simp_all [failures, descriptor, isRetryEvent]

/-- The retry loop only appends sleeps and invocations to the trace. -/
theorem retryLoop_trace {σ : Type} (env : Env σ) (file : ZipFile) (op : FetchOperation σ) :
    ∀ (n attempt : Nat) (lastErr : Option String) (st : St σ),
      ∃ new : List Event, (retryLoop env file op n attempt lastErr st).2.trace = st.trace ++ new ∧
        ∀ e ∈ new, isRetryEvent e = true := by
  intro n
  induction n with
  | zero => intro attempt lastErr st; exact ⟨[], by simp [retryLoop], by simp⟩
  | succ n ih =>
    intro attempt lastErr st
    rw [retryLoop]
    generalize hst1 : (if attempt > 0 then timeSleep env (baseDelay * (1 <<< attempt)) st else st) = st1
    have htr : ∃ pre, st1.trace = st.trace ++ pre ∧ ∀ e ∈ pre, isRetryEvent e = true := by
      subst hst1
      by_cases h : attempt > 0
      · exact ⟨[Event.sleep (baseDelay * (1 <<< attempt))], by simp [h, timeSleep], by simp [isRetryEvent]⟩
      · exact ⟨[], by simp [h], by simp⟩
    obtain ⟨pre, hpre, hq⟩ := htr
    cases h : (op.ProcessFile file op.ApiToken st1.world).err with
    | none =>
      refine ⟨pre ++ [Event.invoke op.Name file.Name none], by simp [hpre], ?_⟩
      intro e he
      rcases List.mem_append.mp he with h1 | h1
      · exact hq e h1
      · simp at h1; subst h1; rfl
    | some e =>
      simp only
      obtain ⟨new, hnew, hq2⟩ := ih (attempt + 1) (some e)
        { world := (op.ProcessFile file op.ApiToken st1.world).world
          w := st1.w ++ (op.ProcessFile file op.ApiToken st1.world).written
          trace := st1.trace ++ [Event.invoke op.Name file.Name (some e)] }
      refine ⟨pre ++ [Event.invoke op.Name file.Name (some e)] ++ new, by rw [hnew]; simp [hpre], ?_⟩
      intro x hx
      rcases List.mem_append.mp hx with h1 | h1
      · rcases List.mem_append.mp h1 with h2 | h2
        · exact hq x h2
        · simp at h2; subst h2; rfl
      · exact hq2 x h1

theorem appendLast_snoc (w : List OutEntry) (e : OutEntry) (b : Bytes) :
    appendLast (w ++ [e]) b = w ++ [{ e with Content := e.Content ++ b }] := by
  induction w with
  | nil => rfl
  | cons x xs ih =>
    cases xs with
    | nil => simp [appendLast]
    | cons y ys =>
      have hstep : appendLast (x :: y :: (ys ++ [e])) b = x :: appendLast (y :: (ys ++ [e])) b := by
        simp [appendLast]
      have ih2 : appendLast (y :: (ys ++ [e])) b = y :: (ys ++ [{ e with Content := e.Content ++ b }]) := by
        simpa using ih
      simp [hstep, ih2]

theorem createdHeader_name (h : FileHeader) : (createdHeader h).Name = h.Name := by
  unfold createdHeader
  split <;> rfl

theorem lastIsDir_snoc (w : List OutEntry) (e : OutEntry) :
    lastIsDir (w ++ [e]) = isDir e.Header.Name := by
  simp [lastIsDir]

/-- Effect of `w.CreateHeader`: the trace is untouched; the writer is unchanged
or has gained the entry with the listed header and no content, which it has on
success. -/
theorem wCreateHeader_effect {σ : Type} (env : Env σ) (h : FileHeader) (st : St σ) :
    (wCreateHeader env h st).2.trace = st.trace ∧
    (((wCreateHeader env h st).1 ≠ none ∧ (wCreateHeader env h st).2.w = st.w) ∨
      (wCreateHeader env h st).2.w = st.w ++ [{ Header := createdHeader h, Content := [] }]) ∧
    ((wCreateHeader env h st).1 = none →
      (wCreateHeader env h st).2.w = st.w ++ [{ Header := createdHeader h, Content := [] }]) := by
  unfold wCreateHeader
  rcases hC : env.closeLast st.world with ⟨ce, world1⟩
  cases ce with
  | some e => simp
  | none =>
    simp only
    by_cases hm : (!isDir h.Name && h.Method != Store && h.Method != Deflate) = true
    · rw [if_pos hm]; simp
    · rw [if_neg hm]
      rcases hH : env.writeHeader (createdHeader h) world1 with ⟨he, world2⟩
      cases he <;> simp

/-- Effect of a `Write` that follows the creation of the entry `e`: the trace is
untouched and `e` gains the bytes written, which are all the bytes on
success. -/
theorem wWrite_effect {σ : Type} (env : Env σ) (b : Bytes) (st : St σ)
    (w0 : List OutEntry) (e : OutEntry) (hw : st.w = w0 ++ [e]) :
    (wWrite env b st).2.trace = st.trace ∧
    ∃ c : Bytes, (wWrite env b st).2.w = w0 ++ [{ e with Content := e.Content ++ c }] ∧
      ((wWrite env b st).1 = none → c = b) := by
  unfold wWrite
  by_cases hd : lastIsDir st.w = true
  · rw [if_pos hd]
    by_cases hb : b.isEmpty = true
    · rw [if_pos hb]
      have hnil : b = [] := by simpa using hb
      exact ⟨rfl, [], by simp [hw], fun _ => hnil.symm⟩
    · rw [if_neg hb]
      exact ⟨rfl, [], by simp [hw], fun h => by simp at h⟩
  · rw [if_neg hd]
    rcases hW : env.write b st.world with ⟨we, world1⟩
    cases we with
    | some ne =>
      obtain ⟨n, err⟩ := ne
      exact ⟨rfl, b.take n, by simp [hw, appendLast_snoc], fun h => by simp at h⟩
    | none => exact ⟨rfl, b, by simp [hw, appendLast_snoc], fun _ => rfl⟩

theorem wWrite_trace {σ : Type} (env : Env σ) (b : Bytes) (st : St σ) :
    (wWrite env b st).2.trace = st.trace := by
  unfold wWrite
  by_cases hd : lastIsDir st.w = true
  · rw [if_pos hd]
    by_cases hb : b.isEmpty = true
    · rw [if_pos hb]
    · rw [if_neg hb]
  · rw [if_neg hd]
    rcases hW : env.write b st.world with ⟨we, world1⟩
    cases we <;> rfl

/-- Effect of `io.Copy` into the stream of the entry `e` just created. -/
theorem ioCopy_effect {σ : Type} (env : Env σ) (src : Reader) (st : St σ)
    (w0 : List OutEntry) (e : OutEntry) (hw : st.w = w0 ++ [e]) :
    (ioCopy env src st).2.trace = st.trace ∧
    ∃ c : Bytes, (ioCopy env src st).2.w = w0 ++ [{ e with Content := e.Content ++ c }] ∧
      ((ioCopy env src st).1 = none → c = src.data ∧ src.err = none) := by
  unfold ioCopy
  by_cases hnil : src.data.isEmpty = true
  · rw [if_pos hnil]
    have hd : src.data = [] := by simpa using hnil
    exact ⟨rfl, [], by simp [hw], fun h => ⟨hd.symm, h⟩⟩
  · rw [if_neg hnil]
    obtain ⟨htr, c, hc, hok⟩ := wWrite_effect env src.data st w0 e hw
    rcases hr : wWrite env src.data st with ⟨res, st1⟩
    rw [hr] at htr hc hok
    cases res with
    | some err => exact ⟨htr, c, hc, fun h => by simp at h⟩
    | none => exact ⟨htr, c, hc, fun h => ⟨hok rfl, h⟩⟩

/-- The copy into the stream of the entry `e` just created writes all the data
when the write, if there is one, succeeds. -/
theorem ioCopy_ok {σ : Type} (env : Env σ) (src : Reader) (st : St σ)
    (w0 : List OutEntry) (e : OutEntry) (hw : st.w = w0 ++ [e])
    (hdir : isDir e.Header.Name = false)
    (hwrite : src.data ≠ [] → (env.write src.data st.world).1 = none) :
    (ioCopy env src st).2.w = w0 ++ [{ e with Content := e.Content ++ src.data }] := by
  unfold ioCopy
  by_cases hnil : src.data.isEmpty = true
  · rw [if_pos hnil]
    have hd : src.data = [] := by simpa using hnil
    simp [hw, hd]
  · rw [if_neg hnil]
    have hne : src.data ≠ [] := by simpa using hnil
    rcases hW : env.write src.data st.world with ⟨we, world1⟩
    have hwe : we = none := by
      have h0 := hwrite hne
      rw [hW] at h0
      exact h0
    subst hwe
    simp [wWrite, hw, lastIsDir_snoc, hdir, hW, appendLast_snoc]

/-- Effect of `copyFileToOutput`: the trace is untouched, the writer gains at
most one entry, listed under the source name with the zero modification time
and the method that `w.Create` gives it; on success its content is the source
data. -/
theorem copyFileToOutput_effect {σ : Type} (env : Env σ) (file : ZipFile) (st : St σ) :
    (copyFileToOutput env file st).2.trace = st.trace ∧
    ∃ added : List OutEntry, (copyFileToOutput env file st).2.w = st.w ++ added ∧
      (added = [] ∨ ∃ c, added =
        [{ Header := createdHeader { Name := file.Name, Modified := 0, Method := Deflate },
           Content := c }]) ∧
      ((copyFileToOutput env file st).1 = none → ∃ r, file.Open = Except.ok r ∧ r.err = none ∧
        added = [{ Header := createdHeader { Name := file.Name, Modified := 0, Method := Deflate },
                   Content := r.data }]) := by
  cases hO : file.Open with
  | error e => simp [copyFileToOutput, hO]
  | ok reader =>
    obtain ⟨htr, hcase, hok⟩ :=
      wCreateHeader_effect env { Name := file.Name, Modified := 0, Method := Deflate } st
    simp only [copyFileToOutput, hO, wCreate]
    rcases hC : wCreateHeader env { Name := file.Name, Modified := 0, Method := Deflate } st
      with ⟨res, st1⟩
    rw [hC] at htr hcase hok
    simp only at htr hcase hok
    cases res with
    | some e =>
      simp only
      rcases hcase with ⟨_, h⟩ | h
      · exact ⟨htr, [], by simp [h], Or.inl rfl, fun h => by simp at h⟩
      · exact ⟨htr, _, h, Or.inr ⟨[], rfl⟩, fun h => by simp at h⟩
    | none =>
      simp only
      have hw := hok rfl
      obtain ⟨htr2, c, hc, hok2⟩ := ioCopy_effect env reader st1 st.w _ hw
      rcases hI : ioCopy env reader st1 with ⟨res2, st2⟩
      rw [hI] at htr2 hc hok2
      simp only at htr2 hc hok2
      cases res2 with
      | some e =>
        exact ⟨by simp [htr2, htr], _, hc, Or.inr ⟨c, by simp⟩, fun h => by simp at h⟩
      | none =>
        obtain ⟨hcd, herr⟩ := hok2 rfl
        exact ⟨by simp [htr2, htr], _, hc, Or.inr ⟨c, by simp⟩,
          fun _ => ⟨reader, rfl, herr, by simp [hcd]⟩⟩

theorem processFileWithRetry_trace {σ : Type} (env : Env σ) (file : ZipFile)
    (op : FetchOperation σ) (st : St σ) :
    ∃ new : List Event, (processFileWithRetry env file op st).2.trace = st.trace ++ new ∧
      ∀ e ∈ new, isRetryEvent e = true :=
  retryLoop_trace env file op maxRetries 0 none st

/-- The operations loop records every exhausted operation: the errors it appends
are the failure descriptors of the events it appends. -/
theorem opsLoop_errors {σ : Type} (env : Env σ) (file : ZipFile) :
    ∀ (ops : List (FetchOperation σ)) (p : Pass σ),
      ∃ new : List Event, (opsLoop env file ops p).st.trace = p.st.trace ++ new ∧
        visits new = [] ∧
        (opsLoop env file ops p).processingErrors = p.processingErrors ++ failures new := by
  intro ops
  induction ops with
  | nil => intro p; exact ⟨[], by simp [opsLoop], rfl, by simp [opsLoop, failures]⟩
  | cons op ops ih =>
    intro p
    rw [opsLoop]
    by_cases h1 : (op.TargetFiles.length > 0 && !targetLookup op.TargetFiles file.Name) = true
    · rw [if_pos h1]; exact ih p
    · rw [if_neg h1]
      by_cases h2 : p.processedFiles.contains file.Name = true
      · rw [if_pos h2]; exact ih p
      · rw [if_neg h2]
        obtain ⟨new0, hnew0, hq⟩ := processFileWithRetry_trace env file op p.st
        rcases hr : processFileWithRetry env file op p.st with ⟨res, st1⟩
        rw [hr] at hnew0
        simp only at hnew0
        cases res with
        | some err =>
          simp only
          obtain ⟨new, hnew, hv, he⟩ := ih
            { p with
              st := logEvent (Event.retried op.Name file.Name (some err)) st1
              processingErrors := p.processingErrors ++
                ["[" ++ op.Name ++ "] Failed processing " ++ file.Name ++ ": " ++ err] }
          refine ⟨new0 ++ [Event.retried op.Name file.Name (some err)] ++ new, ?_, ?_, ?_⟩
          · rw [hnew]; simp [logEvent, hnew0]
          · simp [visits_append, visits_of_retryEvents new0 hq, hv, visits]
          · rw [he]
            simp [failures_append, failures_of_retryEvents new0 hq]
            simp [failures, descriptor]
        | none =>
          simp only
          obtain ⟨new, hnew, hv, he⟩ := ih
            { p with
              st := timeSleep env op.ApiRateLimit
                (logEvent (Event.retried op.Name file.Name none) st1)
              processedFiles := file.Name :: p.processedFiles }
          refine ⟨new0 ++ [Event.retried op.Name file.Name none, Event.sleep op.ApiRateLimit] ++ new,
            ?_, ?_, ?_⟩
          · rw [hnew]; simp [logEvent, timeSleep, hnew0]
          · simp [visits_append, visits_of_retryEvents new0 hq, hv, visits]
          · rw [he]
            simp [failures_append, failures_of_retryEvents new0 hq]
            simp [failures, descriptor]

theorem fileStep_errors {σ : Type} (env : Env σ) (ops : List (FetchOperation σ))
    (file : ZipFile) (p : Pass σ) :
    ∃ new : List Event, (fileStep env ops file p).st.trace = p.st.trace ++ new ∧
      visits new = [file.Name] ∧
      (fileStep env ops file p).processingErrors = p.processingErrors ++ failures new := by
  obtain ⟨new0, hnew0, hv0, he0⟩ := opsLoop_errors env file ops
    { p with st := logEvent (Event.visit file.Name) p.st }
  unfold fileStep
  simp only
  generalize opsLoop env file ops { p with st := logEvent (Event.visit file.Name) p.st } = p1
    at hnew0 he0
  simp only [logEvent] at hnew0
  simp only at he0
  by_cases hp : (!p1.processedFiles.contains file.Name) = true
  · rw [if_pos hp]
    have hc := (copyFileToOutput_effect env file p1.st).1
    rcases hr : copyFileToOutput env file p1.st with ⟨res, st1⟩
    rw [hr] at hc
    simp only at hc
    cases res with
    | some err =>
      refine ⟨[Event.visit file.Name] ++ new0 ++ [Event.copied file.Name (some err)], ?_, ?_, ?_⟩
      · simp [logEvent, hc, hnew0]
      · simp [visits_append, hv0, visits]
      · simp [failures_append, he0]
        simp [failures, descriptor]
    | none =>
      refine ⟨[Event.visit file.Name] ++ new0 ++ [Event.copied file.Name none], ?_, ?_, ?_⟩
      · simp [logEvent, hc, hnew0]
      · simp [visits_append, hv0, visits]
      · simp [failures_append, he0]
        simp [failures, descriptor]
  · rw [if_neg hp]
    refine ⟨[Event.visit file.Name] ++ new0, by simp [hnew0], by simp [visits_append, hv0, visits], ?_⟩
    simp [failures_append, he0]
    simp [failures, descriptor]

theorem filesLoop_errors {σ : Type} (env : Env σ) (ops : List (FetchOperation σ)) :
    ∀ (files : List ZipFile) (p : Pass σ),
      ∃ new : List Event, (filesLoop env ops files p).st.trace = p.st.trace ++ new ∧
        visits new = files.map ZipFile.Name ∧
        (filesLoop env ops files p).processingErrors = p.processingErrors ++ failures new := by
  intro files
  induction files with
  | nil => intro p; exact ⟨[], by simp [filesLoop], rfl, by simp [filesLoop, failures]⟩
  | cons file files ih =>
    intro p
    obtain ⟨new0, hnew0, hv0, he0⟩ := fileStep_errors env ops file p
    obtain ⟨new, hnew, hv, he⟩ := ih (fileStep env ops file p)
    refine ⟨new0 ++ new, ?_, ?_, ?_⟩
    · rw [filesLoop, hnew, hnew0]; simp
    · simp [visits_append, hv0, hv]
    · rw [filesLoop, he, he0]; simp [failures_append]

theorem failures_eq_nil_iff (t : List Event) :
    failures t = [] ↔ ∀ e ∈ t, (∀ op file err, e ≠ Event.retried op file (some err)) ∧
      (∀ file err, e ≠ Event.copied file (some err)) := by
  unfold failures
  rw [List.filterMap_eq_nil_iff]
  constructor
  · intro h e he
    have hd := h e he
    constructor
    · intro op file err heq; subst heq; simp [descriptor] at hd
    · intro file err heq; subst heq; simp [descriptor] at hd
  · intro h e he
    obtain ⟨h1, h2⟩ := h e he
    cases e with
    | retried op file err =>
      cases err with
      | none => rfl
      | some x => exact absurd rfl (h1 op file x)
    | copied file err =>
      cases err with
      | none => rfl
      | some x => exact absurd rfl (h2 file x)
    | _ => rfl

/-- C6: `ProcessZipArchive` visits every source entry in archive order; it
returns success exactly when the run recorded no operation that exhausted its
retries and no failed verbatim copy; otherwise it returns one error that
reports the number of recorded failures and lists their descriptors, one per
failure, in order of occurrence. -/
theorem ProcessZipArchive_aggregate {σ : Type} (env : Env σ) (files : List ZipFile)
    (ops : List (FetchOperation σ)) (world : σ) :
    visits (ProcessZipArchive env (Except.ok files) none ops world).2.trace =
      files.map ZipFile.Name ∧
    ((ProcessZipArchive env (Except.ok files) none ops world).1 = none ↔
      ∀ e ∈ (ProcessZipArchive env (Except.ok files) none ops world).2.trace,
        (∀ op file err, e ≠ Event.retried op file (some err)) ∧
        (∀ file err, e ≠ Event.copied file (some err))) ∧
    (ProcessZipArchive env (Except.ok files) none ops world).1 =
      (if failures (ProcessZipArchive env (Except.ok files) none ops world).2.trace = [] then none
       else some ("encountered " ++
          toString (failures (ProcessZipArchive env (Except.ok files) none ops world).2.trace).length ++
          " errors:\n" ++
          "\n".intercalate (failures (ProcessZipArchive env (Except.ok files) none ops world).2.trace))) := by
  obtain ⟨new, hnew, hv, he⟩ := filesLoop_errors env ops files
    { st := { world := world, w := [], trace := [] }, processingErrors := [], processedFiles := [] }
  simp only [List.nil_append] at hnew he
  have htrace : (ProcessZipArchive env (Except.ok files) none ops world).2.trace = new := by
    simp [ProcessZipArchive, hnew]
  have hres : (ProcessZipArchive env (Except.ok files) none ops world).1 = aggregate (failures new) := by
    simp [ProcessZipArchive, he]
  rw [htrace, hres]
  refine ⟨hv, ?_, ?_⟩
  · rw [← failures_eq_nil_iff]
    unfold aggregate
    cases hf : failures new with
    | nil => simp
    | cons a l => simp
  · unfold aggregate
    cases hf : failures new with
    | nil => simp
    | cons a l => simp

/-- Once the entry name is in the processed-set the operations loop does
nothing. -/
theorem opsLoop_processed {σ : Type} (env : Env σ) (file : ZipFile) :
    ∀ (ops : List (FetchOperation σ)) (p : Pass σ),
      p.processedFiles.contains file.Name = true → opsLoop env file ops p = p := by
  intro ops
  induction ops with
  | nil => intro p _; rfl
  | cons op ops ih =>
    intro p hp
    rw [opsLoop]
    by_cases h1 : (op.TargetFiles.length > 0 && !targetLookup op.TargetFiles file.Name) = true
    · rw [if_pos h1]; exact ih p hp
    · rw [if_neg h1, if_pos hp]; exact ih p hp

theorem opsLoop_dispatch_aux {σ : Type} (env : Env σ) (file : ZipFile) :
    ∀ (ops : List (FetchOperation σ)) (p : Pass σ),
      p.processedFiles.contains file.Name = false →
      ∃ new : List Event, (opsLoop env file ops p).st.trace = p.st.trace ++ new ∧
        (∀ d ∈ dispatches new, d.2.1 = file.Name) ∧
        ∃ errs : List String,
          ((dispatches new).map (fun d => d.2.2) = errs.map some ∧
            (dispatches new).map (fun d => d.1) =
              (ops.filter (fun op => targets op file.Name)).map (fun op => op.Name) ∧
            (opsLoop env file ops p).processedFiles.contains file.Name = false) ∨
          ((dispatches new).map (fun d => d.2.2) = errs.map some ++ [none] ∧
            (dispatches new).map (fun d => d.1) <+:
              (ops.filter (fun op => targets op file.Name)).map (fun op => op.Name) ∧
            (opsLoop env file ops p).processedFiles.contains file.Name = true) := by
  intro ops
  induction ops with
  | nil =>
    intro p hp
    exact ⟨[], by simp [opsLoop], by simp [dispatches], [], Or.inl ⟨by simp [dispatches], by simp [dispatches], by simpa [opsLoop] using hp⟩⟩
  | cons op ops ih =>
    intro p hp
    rw [opsLoop]
    by_cases h1 : (op.TargetFiles.length > 0 && !targetLookup op.TargetFiles file.Name) = true
    · rw [if_pos h1]
      have ht : targets op file.Name = false := by
        unfold targets; rw [h1]; rfl
      simpa [List.filter_cons, ht] using ih p hp
    · rw [if_neg h1]
      have ht : targets op file.Name = true := by
        unfold targets
        cases hb : (decide (op.TargetFiles.length > 0) && !targetLookup op.TargetFiles file.Name)
        · rfl
        · exact absurd hb h1
      have hp2 : ¬ (p.processedFiles.contains file.Name = true) := by rw [hp]; exact Bool.false_ne_true
      rw [if_neg hp2]
      obtain ⟨new0, hnew0, hq⟩ := processFileWithRetry_trace env file op p.st
      rcases hr : processFileWithRetry env file op p.st with ⟨res, st1⟩
      rw [hr] at hnew0
      simp only at hnew0
      cases res with
      | some err =>
        simp only
        obtain ⟨new, hnew, hfile, errs, hcase⟩ := ih
          { p with
            st := logEvent (Event.retried op.Name file.Name (some err)) st1
            processingErrors := p.processingErrors ++
              ["[" ++ op.Name ++ "] Failed processing " ++ file.Name ++ ": " ++ err] } hp
        have hd : dispatches (new0 ++ [Event.retried op.Name file.Name (some err)] ++ new) =
            (op.Name, file.Name, some err) :: dispatches new := by
          simp [dispatches_append, dispatches_of_retryEvents new0 hq, dispatches]
        refine ⟨new0 ++ [Event.retried op.Name file.Name (some err)] ++ new, ?_, ?_, err :: errs, ?_⟩
        · rw [hnew]; simp [logEvent, hnew0]
        · rw [hd]; intro d hdm
          rcases List.mem_cons.mp hdm with h | h
          · subst h; rfl
          · exact hfile d h
        · rw [hd]
          rcases hcase with ⟨h1, h2, h3⟩ | ⟨h1, h2, h3⟩
          · exact Or.inl ⟨by simp [h1], by simp [List.filter_cons, ht, h2], h3⟩
          · refine Or.inr ⟨by simp [h1], ?_, h3⟩
            simp only [List.filter_cons, ht, if_true, List.map_cons]
            exact (List.prefix_cons_inj _).mpr h2
      | none =>
        simp only
        have hproc : (file.Name :: p.processedFiles).contains file.Name = true := by simp
        rw [opsLoop_processed env file ops _ hproc]
        refine ⟨new0 ++ [Event.retried op.Name file.Name none, Event.sleep op.ApiRateLimit],
          by simp [logEvent, timeSleep, hnew0], ?_, [], Or.inr ⟨?_, ?_, hproc⟩⟩
        · simp [dispatches_append, dispatches_of_retryEvents new0 hq, dispatches]
        · simp [dispatches_append, dispatches_of_retryEvents new0 hq, dispatches]
        · simp [dispatches_append, dispatches_of_retryEvents new0 hq, dispatches, List.filter_cons, ht]

/-- C5 (amended): for an entry whose name is not yet in the processed-set,
`ProcessZipArchive` dispatches the entry to the operations that target it, in
registration order, until one succeeds.  Every dispatch but the last exhausted
its retries; either all of them did, and then every targeting operation was
tried and the name stays out of the processed-set, or the last one succeeded,
the name is in the processed-set and no operation is dispatched after it. -/
theorem opsLoop_dispatch {σ : Type} (env : Env σ) (file : ZipFile)
    (ops : List (FetchOperation σ)) (p : Pass σ)
    (hnew : p.processedFiles.contains file.Name = false) :
    ∃ new : List Event, (opsLoop env file ops p).st.trace = p.st.trace ++ new ∧
      (∀ d ∈ dispatches new, d.2.1 = file.Name) ∧
      ∃ errs : List String,
        ((dispatches new).map (fun d => d.2.2) = errs.map some ∧
          (dispatches new).map (fun d => d.1) =
            (ops.filter (fun op => targets op file.Name)).map (fun op => op.Name) ∧
          (opsLoop env file ops p).processedFiles.contains file.Name = false) ∨
        ((dispatches new).map (fun d => d.2.2) = errs.map some ++ [none] ∧
          (dispatches new).map (fun d => d.1) <+:
            (ops.filter (fun op => targets op file.Name)).map (fun op => op.Name) ∧
          (opsLoop env file ops p).processedFiles.contains file.Name = true) :=
  opsLoop_dispatch_aux env file ops p hnew

theorem nameCount_append (n : String) (a b : List OutEntry) :
    nameCount n (a ++ b) = nameCount n a + nameCount n b := by
  simp [nameCount, List.count_append]

/-- The writer after the retry loop, for an operation whose failing invocations
write nothing: unchanged on failure, extended by what the successful invocation
wrote on success. -/
theorem retryLoop_writer {σ : Type} (env : Env σ) (file : ZipFile) (op : FetchOperation σ)
    (hfail : ∀ f tok s, (op.ProcessFile f tok s).err ≠ none → (op.ProcessFile f tok s).written = []) :
    ∀ (n attempt : Nat) (lastErr : Option String) (st : St σ),
      ((retryLoop env file op n attempt lastErr st).1 ≠ none →
        (retryLoop env file op n attempt lastErr st).2.w = st.w) ∧
      ((retryLoop env file op n attempt lastErr st).1 = none →
        ∃ s, (op.ProcessFile file op.ApiToken s).err = none ∧
          (retryLoop env file op n attempt lastErr st).2.w =
            st.w ++ (op.ProcessFile file op.ApiToken s).written) := by
  intro n
  induction n with
  | zero => intro attempt lastErr st; simp [retryLoop]
  | succ n ih =>
    intro attempt lastErr st
    rw [retryLoop]
    generalize hst1 : (if attempt > 0 then timeSleep env (baseDelay * (1 <<< attempt)) st else st) = st1
    have hw : st1.w = st.w := by
      subst hst1
      by_cases h : attempt > 0 <;> simp [h, timeSleep]
    cases h : (op.ProcessFile file op.ApiToken st1.world).err with
    | none =>
      simp only
      exact ⟨fun hne => absurd rfl hne, fun _ => ⟨st1.world, h, by rw [hw]⟩⟩
    | some e =>
      simp only
      have hnil : (op.ProcessFile file op.ApiToken st1.world).written = [] :=
        hfail _ _ _ (by rw [h]; simp)
      have := ih (attempt + 1) (some e)
        { world := (op.ProcessFile file op.ApiToken st1.world).world
          w := st1.w ++ (op.ProcessFile file op.ApiToken st1.world).written
          trace := st1.trace ++ [Event.invoke op.Name file.Name (some e)] }
      simpa [hnil, hw] using this

/-- Entries added by the operations loop for one entry, for operations that
write only in successful invocations and then at most one entry under the
entry's name and none under another name of `names`. -/
theorem opsLoop_writer {σ : Type} (env : Env σ) (file : ZipFile) (names : List String) :
    ∀ (ops : List (FetchOperation σ)) (p : Pass σ),
      (∀ op ∈ ops, ∀ f tok s, (op.ProcessFile f tok s).err ≠ none →
        (op.ProcessFile f tok s).written = []) →
      (∀ op ∈ ops, ∀ f tok s, (op.ProcessFile f tok s).err = none →
        ∀ n ∈ names, nameCount n (op.ProcessFile f tok s).written ≤ if n = f.Name then 1 else 0) →
      ∃ added : List OutEntry, (opsLoop env file ops p).st.w = p.st.w ++ added ∧
        (∀ n ∈ names, nameCount n added ≤ if n = file.Name then 1 else 0) ∧
        ((opsLoop env file ops p).processedFiles.contains file.Name = false → added = []) := by
  intro ops
  induction ops with
  | nil =>
    intro p _ _
    exact ⟨[], by simp [opsLoop], by simp [nameCount], fun _ => rfl⟩
  | cons op ops ih =>
    intro p hfail hok
    have hfail2 : ∀ o ∈ ops, ∀ f tok s, (o.ProcessFile f tok s).err ≠ none →
        (o.ProcessFile f tok s).written = [] := fun o ho => hfail o (by simp [ho])
    have hok2 : ∀ o ∈ ops, ∀ f tok s, (o.ProcessFile f tok s).err = none →
        ∀ n ∈ names, nameCount n (o.ProcessFile f tok s).written ≤ if n = f.Name then 1 else 0 :=
      fun o ho => hok o (by simp [ho])
    rw [opsLoop]
    by_cases h1 : (op.TargetFiles.length > 0 && !targetLookup op.TargetFiles file.Name) = true
    · rw [if_pos h1]; exact ih p hfail2 hok2
    · rw [if_neg h1]
      by_cases h2 : p.processedFiles.contains file.Name = true
      · rw [if_pos h2]; exact ih p hfail2 hok2
      · rw [if_neg h2]
        have hw := retryLoop_writer env file op (hfail op (by simp)) maxRetries 0 none p.st
        rcases hr : processFileWithRetry env file op p.st with ⟨res, st1⟩
        unfold processFileWithRetry at hr
        rw [hr] at hw
        simp only at hw
        cases res with
        | some err =>
          simp only
          have hst1 : st1.w = p.st.w := hw.1 (by simp)
          obtain ⟨added, hadd, hcount, hnot⟩ := ih
            { p with
              st := logEvent (Event.retried op.Name file.Name (some err)) st1
              processingErrors := p.processingErrors ++
                ["[" ++ op.Name ++ "] Failed processing " ++ file.Name ++ ": " ++ err] }
            hfail2 hok2
          exact ⟨added, by rw [hadd]; simp [logEvent, hst1], hcount, hnot⟩
        | none =>
          simp only
          obtain ⟨s, hs, hst1⟩ := hw.2 rfl
          have hproc : (file.Name :: p.processedFiles).contains file.Name = true := by simp
          rw [opsLoop_processed env file ops _ hproc]
          refine ⟨(op.ProcessFile file op.ApiToken s).written, by simp [timeSleep, logEvent, hst1],
            hok op (by simp) file op.ApiToken s hs, ?_⟩
          intro hc
          simp at hc

theorem fileStep_writer {σ : Type} (env : Env σ) (ops : List (FetchOperation σ))
    (file : ZipFile) (names : List String) (p : Pass σ)
    (hfail : ∀ op ∈ ops, ∀ f tok s, (op.ProcessFile f tok s).err ≠ none →
      (op.ProcessFile f tok s).written = [])
    (hok : ∀ op ∈ ops, ∀ f tok s, (op.ProcessFile f tok s).err = none →
      ∀ n ∈ names, nameCount n (op.ProcessFile f tok s).written ≤ if n = f.Name then 1 else 0) :
    ∃ added : List OutEntry, (fileStep env ops file p).st.w = p.st.w ++ added ∧
      ∀ n ∈ names, nameCount n added ≤ if n = file.Name then 1 else 0 := by
  obtain ⟨added0, hadd0, hcount0, hnot0⟩ := opsLoop_writer env file names ops
    { p with st := logEvent (Event.visit file.Name) p.st } hfail hok
  unfold fileStep
  simp only
  generalize opsLoop env file ops { p with st := logEvent (Event.visit file.Name) p.st } = p1
    at hadd0 hnot0
  simp only [logEvent] at hadd0
  by_cases hp : (!p1.processedFiles.contains file.Name) = true
  · rw [if_pos hp]
    have hnil : added0 = [] := hnot0 (by simpa using hp)
    obtain ⟨_, added1, hadd1, hshape, _⟩ := copyFileToOutput_effect env file p1.st
    have hcount1 : ∀ n ∈ names, nameCount n added1 ≤ if n = file.Name then 1 else 0 := by
      intro n _
      rcases hshape with h | ⟨c, h⟩
      · simp [h, nameCount]
      · subst h
        by_cases hn : n = file.Name
        · simp [nameCount, hn, createdHeader_name]
        · have : ¬ (file.Name = n) := fun h => hn h.symm
          simp [nameCount, hn, this, createdHeader_name]
    rcases hr : copyFileToOutput env file p1.st with ⟨res, st1⟩
    rw [hr] at hadd1
    simp only at hadd1
    cases res with
    | some err => exact ⟨added1, by simp [logEvent, hadd1, hadd0, hnil], hcount1⟩
    | none => exact ⟨added1, by simp [logEvent, hadd1, hadd0, hnil], hcount1⟩
  · rw [if_neg hp]
    exact ⟨added0, hadd0, hcount0⟩

theorem filesLoop_writer {σ : Type} (env : Env σ) (ops : List (FetchOperation σ))
    (names : List String)
    (hfail : ∀ op ∈ ops, ∀ f tok s, (op.ProcessFile f tok s).err ≠ none →
      (op.ProcessFile f tok s).written = [])
    (hok : ∀ op ∈ ops, ∀ f tok s, (op.ProcessFile f tok s).err = none →
      ∀ n ∈ names, nameCount n (op.ProcessFile f tok s).written ≤ if n = f.Name then 1 else 0) :
    ∀ (files : List ZipFile) (p : Pass σ),
      (files.map ZipFile.Name).Nodup →
      (∀ g ∈ files, g.Name ∈ names) →
      (∀ n ∈ names, nameCount n p.st.w ≤ 1) →
      (∀ g ∈ files, nameCount g.Name p.st.w = 0) →
      ∀ n ∈ names, nameCount n (filesLoop env ops files p).st.w ≤ 1 := by
  intro files
  induction files with
  | nil => intro p _ _ h1 _; simpa [filesLoop] using h1
  | cons file files ih =>
    intro p hnd hmem h1 h0
    rw [filesLoop]
    obtain ⟨added, hadd, hcount⟩ := fileStep_writer env ops file names p hfail hok
    rw [List.map_cons, List.nodup_cons] at hnd
    refine ih (fileStep env ops file p) hnd.2 (fun g hg => hmem g (by simp [hg])) ?_ ?_
    · intro n hn
      rw [hadd, nameCount_append]
      have hc := hcount n hn
      by_cases hfn : n = file.Name
      · rw [if_pos hfn] at hc
        have hz := h0 file (by simp)
        rw [← hfn] at hz
        omega
      · rw [if_neg hfn] at hc
        have := h1 n hn
        omega
    · intro g hg
      have hne : g.Name ≠ file.Name := by
        intro heq
        exact hnd.1 (heq ▸ List.mem_map_of_mem ZipFile.Name hg)
      rw [hadd, nameCount_append, h0 g (by simp [hg])]
      have hc := hcount g.Name (hmem g (by simp [hg]))
      rw [if_neg hne] at hc
      omega

/-- C8 (amended): when the source entry names are distinct and the operations
write to the destination only in invocations that succeed, such an invocation
writing at most one entry under the name of its entry and none under the name
of another source entry, the destination produced by `ProcessZipArchive` holds
at most one entry under each source entry name. -/
theorem ProcessZipArchive_no_duplicate_names {σ : Type} (env : Env σ) (files : List ZipFile)
    (ops : List (FetchOperation σ)) (world : σ)
    (hnodup : (files.map ZipFile.Name).Nodup)
    (hfail : ∀ op ∈ ops, ∀ f tok s, (op.ProcessFile f tok s).err ≠ none →
      (op.ProcessFile f tok s).written = [])
    (hok : ∀ op ∈ ops, ∀ f tok s, (op.ProcessFile f tok s).err = none →
      ∀ g ∈ files, nameCount g.Name (op.ProcessFile f tok s).written ≤
        if g.Name = f.Name then 1 else 0) :
    ∀ g ∈ files, nameCount g.Name (ProcessZipArchive env (Except.ok files) none ops world).2.w ≤ 1 := by
  intro g hg
  have hok2 : ∀ op ∈ ops, ∀ f tok s, (op.ProcessFile f tok s).err = none →
      ∀ n ∈ files.map ZipFile.Name, nameCount n (op.ProcessFile f tok s).written ≤
        if n = f.Name then 1 else 0 := by
    intro op hop f tok s hs n hn
    obtain ⟨g2, hg2, rfl⟩ := List.mem_map.mp hn
    exact hok op hop f tok s hs g2 hg2
  have := filesLoop_writer env ops (files.map ZipFile.Name) hfail hok2 files
    { st := { world := world, w := [], trace := [] }, processingErrors := [], processedFiles := [] }
    hnodup (fun g hg => List.mem_map_of_mem ZipFile.Name hg) (by simp [nameCount])
    (by simp [nameCount]) g.Name (List.mem_map_of_mem ZipFile.Name hg)
  simpa [ProcessZipArchive] using this

theorem splitChars_ne_nil (sep : Char) (l : List Char) : splitChars sep l ≠ [] := by
  cases l with
  | nil => simp [splitChars]
  | cons c cs =>
    rw [splitChars]
    by_cases h : c = sep
    · simp [h]
    · rw [if_neg h]
      cases splitChars sep cs <;> simp

theorem splitChars_append_sep (sep : Char) (rest : List Char) :
    ∀ pre : List Char, ∃ ps : List (List Char), ps ≠ [] ∧
      splitChars sep (pre ++ sep :: rest) = ps ++ splitChars sep rest := by
  intro pre
  induction pre with
  | nil => exact ⟨[[]], by simp, by simp [splitChars]⟩
  | cons c pre ih =>
    obtain ⟨ps, hps, heq⟩ := ih
    rw [List.cons_append, splitChars, heq]
    by_cases h : c = sep
    · exact ⟨[] :: ps, by simp, by simp [h]⟩
    · rw [if_neg h]
      cases ps with
      | nil => exact absurd rfl hps
      | cons q qs => exact ⟨(c :: q) :: qs, by simp, by simp⟩

/-- The text after the last dot of a string that ends in a dot followed by
dot-free text is that text. -/
theorem lastPart_of_suffix (s : String) (tail : List Char) (hdot : '.' ∉ tail)
    (h : hasSuffix s (String.mk ('.' :: tail)) = true) : lastPart s = String.mk tail := by
  unfold hasSuffix at h
  rw [List.isPrefixOf_iff_prefix, List.reverse_prefix] at h
  obtain ⟨pre, hpre⟩ := h
  obtain ⟨ps, hps, heq⟩ := splitChars_append_sep '.' tail pre
  have htail : splitChars '.' tail = [tail] := by
    clear heq hpre
    induction tail with
    | nil => rfl
    | cons c cs ih =>
      have hc : c ≠ '.' := fun e => hdot (by simp [e])
      have hcs : '.' ∉ cs := fun e => hdot (by simp [e])
      rw [splitChars, if_neg hc, ih hcs]
  unfold lastPart
  rw [← hpre]
  show String.mk ((splitChars '.' (pre ++ '.' :: tail)).getLastD []) = String.mk tail
  rw [heq, htail, List.getLastD_eq_getLast?]
  simp

theorem extension_of_suffix (s ext : String) (hext : ext = ".jpg" ∨ ext = ".png")
    (h : hasSuffix s ext = true) : "." ++ lastPart s = ext := by
  rcases hext with rfl | rfl
  · rw [lastPart_of_suffix s ['j', 'p', 'g'] (by decide) h]; rfl
  · rw [lastPart_of_suffix s ['p', 'n', 'g'] (by decide) h]; rfl

theorem lookup_mapSet_self (m : Obj) (k : String) (v : JSON) :
    (mapSet m k v).lookup k = some v := by
  induction m with
  | nil => simp [mapSet, List.lookup]
  | cons kv fields ih =>
    obtain ⟨k1, v1⟩ := kv
    rw [mapSet]
    by_cases h : k1 = k
    · rw [if_pos h]; simp [List.lookup]
    · rw [if_neg h]
      have : (k == k1) = false := by simpa using fun e => h e.symm
      simp [List.lookup, this, ih]

theorem lookup_mapSet_ne (m : Obj) (k k2 : String) (v : JSON) (hne : k2 ≠ k) :
    (mapSet m k v).lookup k2 = m.lookup k2 := by
  induction m with
  | nil =>
    have : (k2 == k) = false := by simpa using hne
    simp [mapSet, List.lookup, this]
  | cons kv fields ih =>
    obtain ⟨k1, v1⟩ := kv
    rw [mapSet]
    by_cases h : k1 = k
    · rw [if_pos h]
      have h1 : (k2 == k) = false := by simpa using hne
      have h2 : (k2 == k1) = false := by rw [h]; exact h1
      simp [List.lookup, h1, h2]
    · rw [if_neg h]
      cases hb : (k2 == k1) <;> simp [List.lookup, hb, ih]

theorem isDir_picture (userid ext : String) (hext : ext = ".jpg" ∨ ext = ".png") :
    isDir ("profile_pictures/" ++ userid ++ ext) = false := by
  rcases hext with rfl | rfl <;> simp [isDir, hasSuffix, String.data_append, List.isPrefixOf]

theorem wCreate_ok {σ : Type} (env : Env σ) (name : String) (st : St σ) (world1 world2 : σ)
    (hdir : isDir name = false)
    (hclose : env.closeLast st.world = (none, world1))
    (hheader : env.writeHeader { Name := name, Modified := 0, Method := Deflate } world1 =
      (none, world2)) :
    wCreate env name st =
      (none, { st with
        world := world2
        w := st.w ++ [{ Header := { Name := name, Modified := 0, Method := Deflate },
                        Content := [] }] }) := by
  have hcreated : createdHeader { Name := name, Modified := 0, Method := Deflate } =
      { Name := name, Modified := 0, Method := Deflate } := by
    simp [createdHeader, hdir]
  simp [wCreate, wCreateHeader, hclose, hdir, hcreated, hheader]

/-- The loop body of `downloadPictures` on a record whose picture is downloaded,
when the writer accepts the entry of this record: closing the entry before,
writing the header of the picture entry and writing the downloaded bytes all
succeed. -/
theorem userStep_downloaded {σ : Type} (env : Env σ) (st : St σ) (fields profile : Obj)
    (userid image_url ext : String) (response : Response) (world1 world2 world3 : σ)
    (hid : fields.lookup "id" = some (JSON.str userid))
    (hprofile : fields.lookup "profile" = some (JSON.obj profile))
    (hurl : profile.lookup "image_original" = some (JSON.str image_url))
    (horigin : hasPrefix image_url avatarPrefix = true)
    (hext : ext = ".jpg" ∨ ext = ".png")
    (hsuffix : hasSuffix image_url ext = true)
    (hreq : env.newRequest image_url = none)
    (hdo : env.httpDo image_url st.world = (Except.ok response, world1))
    (hstatus : response.StatusCode = 200)
    (hclose : env.closeLast world1 = (none, world2))
    (hheader : env.writeHeader
      { Name := "profile_pictures/" ++ userid ++ ext, Modified := 0, Method := Deflate } world2 =
        (none, world3))
    (hwrite : response.Body.data ≠ [] → (env.write response.Body.data world3).1 = none) :
    "." ++ lastPart image_url = ext ∧
    ∃ fields1 profile1 : Obj,
      (userStep env (some fields) st).1 = some fields1 ∧
      fields1.lookup "profile" = some (JSON.obj profile1) ∧
      profile1.lookup "image_path" = some (JSON.str ("profile_pictures/" ++ userid ++ ext)) ∧
      (∀ k, k ≠ "image_path" → profile1.lookup k = profile.lookup k) ∧
      (∀ k, k ≠ "profile" → fields1.lookup k = fields.lookup k) ∧
      (userStep env (some fields) st).2.w = st.w ++
        [{ Header := { Name := "profile_pictures/" ++ userid ++ ext, Modified := 0, Method := Deflate },
           Content := response.Body.data }] := by
  have hE := extension_of_suffix image_url ext hext hsuffix
  have hsfx : (hasSuffix image_url ".jpg" || hasSuffix image_url ".png") = true := by
    rcases hext with rfl | rfl <;> simp [hsuffix]
  have hdir := isDir_picture userid ext hext
  have hcr := wCreate_ok env ("profile_pictures/" ++ userid ++ ext)
    { st with world := world1 } world2 world3 hdir hclose hheader
  have hcopy := ioCopy_ok env response.Body
    { world := world3
      w := st.w ++ [{ Header := { Name := "profile_pictures/" ++ userid ++ ext, Modified := 0,
                                  Method := Deflate },
                      Content := [] }]
      trace := st.trace } st.w
    { Header := { Name := "profile_pictures/" ++ userid ++ ext, Modified := 0, Method := Deflate },
      Content := [] } rfl hdir hwrite
  have hstep : userStep env (some fields) st =
      (some (mapSet fields "profile" (JSON.obj (mapSet profile "image_path"
          (JSON.str ("profile_pictures/" ++ userid ++ ext))))),
        (ioCopy env response.Body
          { world := world3
            w := st.w ++ [{ Header := { Name := "profile_pictures/" ++ userid ++ ext, Modified := 0,
                                        Method := Deflate },
                            Content := [] }]
            trace := st.trace }).2) := by
    unfold userStep
    simp only [mapGet, hid, hprofile, hurl, horigin, hsfx, Bool.and_self, if_true, hreq, hdo,
      hstatus, hE, hcr]
    simp
  refine ⟨hE, mapSet fields "profile" (JSON.obj (mapSet profile "image_path"
    (JSON.str ("profile_pictures/" ++ userid ++ ext)))),
    mapSet profile "image_path" (JSON.str ("profile_pictures/" ++ userid ++ ext)), ?_, ?_, ?_, ?_, ?_, ?_⟩
  · rw [hstep]
  · exact lookup_mapSet_self _ _ _
  · exact lookup_mapSet_self _ _ _
  · exact fun k hk => lookup_mapSet_ne _ _ _ _ hk
  · exact fun k hk => lookup_mapSet_ne _ _ _ _ hk
  · rw [hstep, hcopy]
    simp

theorem userStep_no_id {σ : Type} (env : Env σ) (user : Option Obj) (st : St σ)
    (h : ∀ s, mapGet user "id" ≠ some (JSON.str s)) : userStep env user st = (user, st) := by
  unfold userStep
  split
  · rename_i userid heq
    exact absurd heq (h userid)
  · rfl

theorem userStep_no_profile {σ : Type} (env : Env σ) (user : Option Obj) (st : St σ)
    (h : ∀ p, mapGet user "profile" ≠ some (JSON.obj p)) : userStep env user st = (user, st) := by
  unfold userStep
  split
  · split
    · rename_i profile heq
      exact absurd heq (h profile)
    · rfl
  · rfl

theorem userStep_no_url {σ : Type} (env : Env σ) (user : Option Obj) (st : St σ) (profile : Obj)
    (hp : mapGet user "profile" = some (JSON.obj profile))
    (h : ∀ u, profile.lookup "image_original" ≠ some (JSON.str u)) :
    userStep env user st = (user, st) := by
  unfold userStep
  split
  · split
    · rename_i profile2 heq
      rw [hp] at heq
      cases heq
      split
      · rename_i url heq2
        exact absurd heq2 (h url)
      · rfl
    · rfl
  · rfl

theorem userStep_bad_url {σ : Type} (env : Env σ) (user : Option Obj) (st : St σ) (profile : Obj)
    (url : String)
    (hp : mapGet user "profile" = some (JSON.obj profile))
    (hu : profile.lookup "image_original" = some (JSON.str url))
    (h : hasPrefix url avatarPrefix = false ∨
      (hasSuffix url ".jpg" = false ∧ hasSuffix url ".png" = false)) :
    userStep env user st = (user, st) := by
  have hcond : ¬ ((hasPrefix url avatarPrefix &&
      (hasSuffix url ".jpg" || hasSuffix url ".png")) = true) := by
    rcases h with h | ⟨h1, h2⟩ <;> simp_all
  unfold userStep
  split
  · split
    · rename_i profile2 heq
      rw [hp] at heq
      cases heq
      split
      · rename_i url2 heq2
        rw [hu] at heq2
        cases heq2
        rw [if_neg hcond]
      · rfl
    · rfl
  · rfl

theorem userStep_download_failed {σ : Type} (env : Env σ) (user : Option Obj) (st : St σ)
    (profile : Obj) (url : String)
    (hp : mapGet user "profile" = some (JSON.obj profile))
    (hu : profile.lookup "image_original" = some (JSON.str url))
    (h : (∃ e, (env.httpDo url st.world).1 = Except.error e) ∨
      ∃ r, (env.httpDo url st.world).1 = Except.ok r ∧ r.StatusCode ≠ 200) :
    (userStep env user st).1 = user ∧ (userStep env user st).2.w = st.w := by
  unfold userStep
  split
  · split
    · rename_i profile2 heq
      rw [hp] at heq
      cases heq
      split
      · rename_i url2 heq2
        rw [hu] at heq2
        cases heq2
        split
        · split
          · exact ⟨rfl, rfl⟩
          · split
            · exact ⟨rfl, rfl⟩
            · rename_i response world1 hdo
              have hne : response.StatusCode ≠ 200 := by
                rcases h with ⟨e, he⟩ | ⟨r, hr, hs⟩
                · rw [hdo] at he; cases he
                · rw [hdo] at hr; cases hr; exact hs
              simp [hne]
        · exact ⟨rfl, rfl⟩
      · exact ⟨rfl, rfl⟩
    · exact ⟨rfl, rfl⟩
  · exact ⟨rfl, rfl⟩

theorem usersLoop_length {σ : Type} (env : Env σ) :
    ∀ (data : List (Option Obj)) (st : St σ), (usersLoop env data st).1.length = data.length := by
  intro data
  induction data with
  | nil => intro st; rfl
  | cons u us ih => intro st; simp [usersLoop, ih]

/-- In the run of the loop over `data`, the record at index `i` is the result of
the loop body on the input record, started in the state the loop reached after
the first `i` records. -/
theorem usersLoop_getElem {σ : Type} (env : Env σ) :
    ∀ (data : List (Option Obj)) (i : Nat) (user : Option Obj) (st : St σ),
      data[i]? = some user →
      (usersLoop env data st).1[i]? =
          some (userStep env user (usersLoop env (data.take i) st).2).1 ∧
        (usersLoop env (data.take (i + 1)) st).2 =
          (userStep env user (usersLoop env (data.take i) st).2).2 := by
  intro data
  induction data with
  | nil => intro i user st h; simp at h
  | cons u us ih =>
    intro i user st h
    cases i with
    | zero =>
      simp at h
      subst h
      simp [usersLoop]
    | succ j =>
      simp at h
      have := ih j user (userStep env u st).2 h
      simpa [usersLoop] using this

/-- At the level of the decoded values, the record loop leaves a record that
gets no picture as it was decoded, and its iteration adds no entry to the
destination. -/
theorem usersLoop_keeps_skipped_records {σ : Type} (env : Env σ) (data : List (Option Obj))
    (st : St σ) (i : Nat) (user : Option Obj) (hi : data[i]? = some user)
    (hskip : (∀ s, mapGet user "id" ≠ some (JSON.str s)) ∨
      (∀ p, mapGet user "profile" ≠ some (JSON.obj p)) ∨
      (∃ p, mapGet user "profile" = some (JSON.obj p) ∧
        ((∀ u, p.lookup "image_original" ≠ some (JSON.str u)) ∨
         ∃ u, p.lookup "image_original" = some (JSON.str u) ∧
           (hasPrefix u avatarPrefix = false ∨
            (hasSuffix u ".jpg" = false ∧ hasSuffix u ".png" = false) ∨
            (∃ e, (env.httpDo u (usersLoop env (data.take i) st).2.world).1 = Except.error e) ∨
            (∃ r, (env.httpDo u (usersLoop env (data.take i) st).2.world).1 = Except.ok r ∧
              r.StatusCode ≠ 200))))) :
    (usersLoop env data st).1[i]? = some user ∧
    (usersLoop env (data.take (i + 1)) st).2.w = (usersLoop env (data.take i) st).2.w := by
  obtain ⟨h1, h2⟩ := usersLoop_getElem env data i user st hi
  rw [h1, h2]
  generalize (usersLoop env (data.take i) st).2 = sti at hskip
  rcases hskip with h | h | ⟨p, hp, h | ⟨u, hu, h | h | h | h⟩⟩
  · simp [userStep_no_id env user sti h]
  · simp [userStep_no_profile env user sti h]
  · simp [userStep_no_url env user sti p hp h]
  · simp [userStep_bad_url env user sti p u hp hu (Or.inl h)]
  · simp [userStep_bad_url env user sti p u hp hu (Or.inr h)]
  · have := userStep_download_failed env user sti p u hp hu (Or.inl h)
    simp [this.1, this.2]
  · have := userStep_download_failed env user sti p u hp hu (Or.inr h)
    simp [this.1, this.2]

theorem wCreate_result {σ : Type} (env : Env σ) (name : String) (st st2 : St σ)
    (r : Option String) (h : wCreate env name st = (r, st2)) :
    ((r ≠ none ∧ st2.w = st.w) ∨
      st2.w = st.w ++ [{ Header := createdHeader { Name := name, Modified := 0, Method := Deflate },
                         Content := [] }]) ∧
    (r = none →
      st2.w = st.w ++ [{ Header := createdHeader { Name := name, Modified := 0, Method := Deflate },
                         Content := [] }]) := by
  have := wCreateHeader_effect env { Name := name, Modified := 0, Method := Deflate } st
  unfold wCreate at h
  rw [h] at this
  exact this.2

/-- The loop body of `downloadPictures` only appends to the destination. -/
theorem userStep_extends {σ : Type} (env : Env σ) (user : Option Obj) (st : St σ) :
    ∃ added : List OutEntry, (userStep env user st).2.w = st.w ++ added := by
  unfold userStep
  split
  · split
    · split
      · split
        · split
          · exact ⟨[], by simp⟩
          · split
            · exact ⟨[], by simp⟩
            · split
              · exact ⟨[], by simp⟩
              · dsimp only
                split
                · rename_i hC
                  rcases (wCreate_result env _ _ _ _ hC).1 with ⟨_, h⟩ | h
                  · exact ⟨[], by simpa using h⟩
                  · exact ⟨_, h⟩
                · rename_i hC
                  have h := (wCreate_result env _ _ _ _ hC).2 rfl
                  exact (ioCopy_effect env _ _ st.w _ h).2.elim fun c hc => ⟨_, hc.1⟩
        · exact ⟨[], by simp⟩
      · exact ⟨[], by simp⟩
    · exact ⟨[], by simp⟩
  · exact ⟨[], by simp⟩

theorem usersLoop_extends {σ : Type} (env : Env σ) :
    ∀ (data : List (Option Obj)) (st : St σ),
      ∃ added : List OutEntry, (usersLoop env data st).2.w = st.w ++ added := by
  intro data
  induction data with
  | nil => intro st; exact ⟨[], by simp [usersLoop]⟩
  | cons u us ih =>
    intro st
    obtain ⟨a1, h1⟩ := userStep_extends env u st
    obtain ⟨a2, h2⟩ := ih (userStep env u st).2
    exact ⟨a1 ++ a2, by simp [usersLoop, h2, h1]⟩

theorem usersLoop_append {σ : Type} (env : Env σ) :
    ∀ (a b : List (Option Obj)) (st : St σ),
      usersLoop env (a ++ b) st =
        ((usersLoop env a st).1 ++ (usersLoop env b (usersLoop env a st).2).1,
         (usersLoop env b (usersLoop env a st).2).2) := by
  intro a
  induction a with
  | nil => intro b st; simp [usersLoop]
  | cons u us ih => intro b st; simp [usersLoop, ih]

/-- What the loop wrote after its first `k` records stays in the destination. -/
theorem usersLoop_take_extends {σ : Type} (env : Env σ) (data : List (Option Obj)) (k : Nat)
    (st : St σ) :
    ∃ added : List OutEntry,
      (usersLoop env data st).2.w = (usersLoop env (data.take k) st).2.w ++ added := by
  obtain ⟨added, h⟩ := usersLoop_extends env (data.drop k) (usersLoop env (data.take k) st).2
  refine ⟨added, ?_⟩
  have := usersLoop_append env (data.take k) (data.drop k) st
  rw [List.take_append_drop] at this
  rw [this]
  exact h

/-- After the record loop `downloadPictures` adds at most the entry
`users.json`, and exactly that entry when it succeeds. -/
theorem downloadPictures_after_loop {σ : Type} (env : Env σ) (input : Reader)
    (data : List (Option Obj)) (st : St σ) (hdec : env.decode input = Except.ok data) :
    ∃ extra : List OutEntry, extra.length ≤ 1 ∧ (∀ x ∈ extra, x.Header.Name = "users.json") ∧
      (downloadPictures env input st).2.w = (usersLoop env data st).2.w ++ extra ∧
      ((downloadPictures env input st).1 = none → extra.length = 1) := by
  simp only [downloadPictures, hdec]
  rcases hC : wCreate env "users.json" (usersLoop env data st).2 with ⟨res, st1⟩
  obtain ⟨hcase, hok⟩ := wCreate_result env _ _ _ _ hC
  cases res with
  | some e =>
    simp only
    rcases hcase with ⟨_, h⟩ | h
    · exact ⟨[], by simp, by simp, by simp [h], fun h => by simp at h⟩
    · exact ⟨_, by simp, by simp [createdHeader_name], h, fun h => by simp at h⟩
  | none =>
    simp only
    obtain ⟨_, c, hc, _⟩ := wWrite_effect env (env.encode (usersLoop env data st).1) st1
      (usersLoop env data st).2.w _ (hok rfl)
    exact ⟨_, by simp, by simp [createdHeader_name], hc, fun _ => by simp⟩

/-- A call of `downloadPictures` only appends to the destination. -/
theorem downloadPictures_extends {σ : Type} (env : Env σ) (input : Reader) (st : St σ) :
    ∃ added : List OutEntry, (downloadPictures env input st).2.w = st.w ++ added := by
  cases hdec : env.decode input with
  | error e => exact ⟨[], by simp [downloadPictures, hdec]⟩
  | ok data =>
    obtain ⟨extra, _, _, h, _⟩ := downloadPictures_after_loop env input data st hdec
    obtain ⟨added, hadd⟩ := usersLoop_extends env data st
    exact ⟨added ++ extra, by rw [h, hadd]; simp⟩

/-- C7 (amended): when `downloadPictures` returns an error, either decoding
failed and the state, the destination included, is as before the call, or the
document was decoded and the destination holds everything the record loop wrote
during the call (the pictures), followed by at most one entry, named
`users.json`.  A second invocation from the state the failed one left only
appends to that destination. -/
theorem downloadPictures_error_effect {σ : Type} (env : Env σ) (input : Reader) (st : St σ)
    (herr : (downloadPictures env input st).1 ≠ none) :
    ((∃ e, env.decode input = Except.error e ∧ downloadPictures env input st = (some e, st)) ∨
     (∃ data, env.decode input = Except.ok data ∧
       ∃ extra : List OutEntry, extra.length ≤ 1 ∧ (∀ x ∈ extra, x.Header.Name = "users.json") ∧
         (downloadPictures env input st).2.w = (usersLoop env data st).2.w ++ extra)) ∧
    ∃ again : List OutEntry,
      (downloadPictures env input (downloadPictures env input st).2).2.w =
        (downloadPictures env input st).2.w ++ again := by
  refine ⟨?_, downloadPictures_extends env input (downloadPictures env input st).2⟩
  cases hdec : env.decode input with
  | error e => exact Or.inl ⟨e, rfl, by simp [downloadPictures, hdec]⟩
  | ok data =>
    obtain ⟨extra, h1, h2, h3, _⟩ := downloadPictures_after_loop env input data st hdec
    exact Or.inr ⟨data, rfl, extra, h1, h2, h3⟩

/-- C10 (amended): for a record, at index `i` of the decoded document, with a
string `id` and a string `profile.image_original` that starts with the trusted
origin and ends in the accepted suffix `ext` (`.jpg` or `.png`), when the
request is built, the download (made in the state reached after the first `i`
records) answers 200 and the destination writer accepts the entry of this
record (closing the entry before, writing the header of the new entry and
writing the downloaded bytes succeed): the extension computed from the text
after the last dot is `ext`; the record at index `i` of the records handed to
the encoder has `profile.image_path` equal to `profile_pictures/` + id + `ext`
and every other field of the profile and of the record as decoded; the
iteration appends to the destination exactly one entry, of that name, with the
downloaded bytes as content; that entry is in the destination when
`downloadPictures` returns, whatever happens to the other records and to
`users.json`. -/
theorem downloadPictures_downloaded_record {σ : Type} (env : Env σ) (input : Reader)
    (data : List (Option Obj)) (st : St σ) (i : Nat) (fields profile : Obj)
    (userid image_url ext : String) (response : Response) (world1 world2 world3 : σ)
    (hdec : env.decode input = Except.ok data)
    (hi : data[i]? = some (some fields))
    (hid : fields.lookup "id" = some (JSON.str userid))
    (hprofile : fields.lookup "profile" = some (JSON.obj profile))
    (hurl : profile.lookup "image_original" = some (JSON.str image_url))
    (horigin : hasPrefix image_url avatarPrefix = true)
    (hext : ext = ".jpg" ∨ ext = ".png")
    (hsuffix : hasSuffix image_url ext = true)
    (hreq : env.newRequest image_url = none)
    (hdo : env.httpDo image_url (usersLoop env (data.take i) st).2.world =
      (Except.ok response, world1))
    (hstatus : response.StatusCode = 200)
    (hclose : env.closeLast world1 = (none, world2))
    (hheader : env.writeHeader
      { Name := "profile_pictures/" ++ userid ++ ext, Modified := 0, Method := Deflate } world2 =
        (none, world3))
    (hwrite : response.Body.data ≠ [] → (env.write response.Body.data world3).1 = none) :
    "." ++ lastPart image_url = ext ∧
    (∃ fields1 profile1 : Obj,
      (usersLoop env data st).1[i]? = some (some fields1) ∧
      fields1.lookup "profile" = some (JSON.obj profile1) ∧
      profile1.lookup "image_path" = some (JSON.str ("profile_pictures/" ++ userid ++ ext)) ∧
      (∀ k, k ≠ "image_path" → profile1.lookup k = profile.lookup k) ∧
      (∀ k, k ≠ "profile" → fields1.lookup k = fields.lookup k)) ∧
    (usersLoop env (data.take (i + 1)) st).2.w = (usersLoop env (data.take i) st).2.w ++
      [{ Header := { Name := "profile_pictures/" ++ userid ++ ext, Modified := 0, Method := Deflate },
         Content := response.Body.data }] ∧
    ({ Header := { Name := "profile_pictures/" ++ userid ++ ext, Modified := 0, Method := Deflate },
       Content := response.Body.data } : OutEntry) ∈ (downloadPictures env input st).2.w := by
  obtain ⟨hE, fields1, profile1, h1, h2, h3, h4, h5, h6⟩ :=
    userStep_downloaded env (usersLoop env (data.take i) st).2 fields profile userid image_url ext
      response world1 world2 world3 hid hprofile hurl horigin hext hsuffix hreq hdo hstatus
      hclose hheader hwrite
  obtain ⟨hget, hstate⟩ := usersLoop_getElem env data i (some fields) st hi
  have hw : (usersLoop env (data.take (i + 1)) st).2.w = (usersLoop env (data.take i) st).2.w ++
      [{ Header := { Name := "profile_pictures/" ++ userid ++ ext, Modified := 0, Method := Deflate },
         Content := response.Body.data }] := by
    rw [hstate, h6]
  refine ⟨hE, ⟨fields1, profile1, by rw [hget, h1], h2, h3, h4, h5⟩, hw, ?_⟩
  obtain ⟨added, hadd⟩ := usersLoop_take_extends env data (i + 1) st
  obtain ⟨extra, _, _, hdp, _⟩ := downloadPictures_after_loop env input data st hdec
  rw [hdp, hadd, hw]
  simp

/-- C3: when every invocation of the operation's `ProcessFile` fails,
`processFileWithRetry` adds exactly this to the trace: an invocation with no
sleep before it, a sleep of 2s, a second invocation, a sleep of 4s, a third
invocation; the sleeps add up to 6s and the call returns the failure that wraps
the third error. -/
theorem processFileWithRetry_always_failing {σ : Type} (env : Env σ) (file : ZipFile)
    (op : FetchOperation σ) (st : St σ)
    (hfail : ∀ f tok s, (op.ProcessFile f tok s).err ≠ none) :
    ∃ e1 e2 e3 : String,
      (processFileWithRetry env file op st).2.trace = st.trace ++
        [Event.invoke op.Name file.Name (some e1), Event.sleep (2 * Second),
         Event.invoke op.Name file.Name (some e2), Event.sleep (4 * Second),
         Event.invoke op.Name file.Name (some e3)] ∧
      totalSleep (processFileWithRetry env file op st).2.trace = totalSleep st.trace + 6 * Second ∧
      (processFileWithRetry env file op st).1 = some ("failed after 3 attempts: " ++ e3) := by
  have key : ∀ s, ∃ e, (op.ProcessFile file op.ApiToken s).err = some e :=
    fun s => Option.ne_none_iff_exists'.mp (hfail _ _ s)
  obtain ⟨e1, h1⟩ := key st.world
  obtain ⟨e2, h2⟩ := key (env.sleep (2 * Second) (op.ProcessFile file op.ApiToken st.world).world)
  obtain ⟨e3, h3⟩ := key (env.sleep (4 * Second) (op.ProcessFile file op.ApiToken
    (env.sleep (2 * Second) (op.ProcessFile file op.ApiToken st.world).world)).world)
  have hs1 : baseDelay * (1 <<< 1) = 2 * Second := by decide
  have hs2 : baseDelay * (1 <<< 2) = 4 * Second := by decide
  have hm : "failed after " ++ toString 3 ++ " attempts: " = "failed after 3 attempts: " := by decide
  have hrun : processFileWithRetry env file op st =
      (some ("failed after 3 attempts: " ++ e3),
        { world := (op.ProcessFile file op.ApiToken
            (env.sleep (4 * Second) (op.ProcessFile file op.ApiToken
              (env.sleep (2 * Second) (op.ProcessFile file op.ApiToken st.world).world)).world)).world
          w := st.w ++ (op.ProcessFile file op.ApiToken st.world).written ++
            (op.ProcessFile file op.ApiToken
              (env.sleep (2 * Second) (op.ProcessFile file op.ApiToken st.world).world)).written ++
            (op.ProcessFile file op.ApiToken
              (env.sleep (4 * Second) (op.ProcessFile file op.ApiToken
                (env.sleep (2 * Second) (op.ProcessFile file op.ApiToken st.world).world)).world)).written
          trace := st.trace ++ [Event.invoke op.Name file.Name (some e1)] ++ [Event.sleep (2 * Second)] ++
            [Event.invoke op.Name file.Name (some e2)] ++ [Event.sleep (4 * Second)] ++
            [Event.invoke op.Name file.Name (some e3)] }) := by
    simp only [processFileWithRetry, maxRetries, retryLoop, gt_iff_lt, lt_self_iff_false, if_false,
      zero_add, Nat.lt_one_iff, Nat.reduceAdd, Nat.lt_add_one, Nat.zero_lt_two, if_true,
      timeSleep, hs1, hs2, h1, h2, h3, fmtErr, hm]
  refine ⟨e1, e2, e3, ?_, ?_, ?_⟩
  · rw [hrun]; simp
  · rw [hrun]; simp [totalSleep_append, totalSleep]; omega
  · rw [hrun]

/-- C4: with `r1`, `r2`, `r3` the results of `op.ProcessFile` on the entry in
the world at the call, in the world after the first result and a sleep of 2s,
and in the world after the second result and a sleep of 4s,
`processFileWithRetry` returns success exactly when `r1` succeeds, or `r1`
fails and `r2` succeeds, or both fail and `r3` succeeds; in each case the
state it returns is the one after that successful invocation, with nothing
invoked after it; when all three fail it returns `failed after 3 attempts: `
followed by the error of `r3`. -/
theorem processFileWithRetry_result {σ : Type} (env : Env σ) (file : ZipFile)
    (op : FetchOperation σ) (st : St σ) :
    let r1 := op.ProcessFile file op.ApiToken st.world
    let r2 := op.ProcessFile file op.ApiToken (env.sleep (2 * Second) r1.world)
    let r3 := op.ProcessFile file op.ApiToken (env.sleep (4 * Second) r2.world)
    ((processFileWithRetry env file op st).1 = none ↔
      (r1.err = none ∨ (r1.err ≠ none ∧ r2.err = none) ∨
        (r1.err ≠ none ∧ r2.err ≠ none ∧ r3.err = none))) ∧
    (r1.err = none →
      processFileWithRetry env file op st =
        (none,
          { world := r1.world
            w := st.w ++ r1.written
            trace := st.trace ++ [Event.invoke op.Name file.Name none] })) ∧
    (∀ e1, r1.err = some e1 → r2.err = none →
      processFileWithRetry env file op st =
        (none,
          { world := r2.world
            w := st.w ++ r1.written ++ r2.written
            trace := st.trace ++
              [Event.invoke op.Name file.Name (some e1), Event.sleep (2 * Second),
               Event.invoke op.Name file.Name none] })) ∧
    (∀ e1 e2, r1.err = some e1 → r2.err = some e2 → r3.err = none →
      processFileWithRetry env file op st =
        (none,
          { world := r3.world
            w := st.w ++ r1.written ++ r2.written ++ r3.written
            trace := st.trace ++
              [Event.invoke op.Name file.Name (some e1), Event.sleep (2 * Second),
               Event.invoke op.Name file.Name (some e2), Event.sleep (4 * Second),
               Event.invoke op.Name file.Name none] })) ∧
    (∀ e1 e2 e3, r1.err = some e1 → r2.err = some e2 → r3.err = some e3 →
      processFileWithRetry env file op st =
        (some ("failed after 3 attempts: " ++ e3),
          { world := r3.world
            w := st.w ++ r1.written ++ r2.written ++ r3.written
            trace := st.trace ++
              [Event.invoke op.Name file.Name (some e1), Event.sleep (2 * Second),
               Event.invoke op.Name file.Name (some e2), Event.sleep (4 * Second),
               Event.invoke op.Name file.Name (some e3)] })) := by
  intro r1 r2 r3
  have hs1 : baseDelay * (1 <<< 1) = 2 * Second := by decide
  have hs2 : baseDelay * (1 <<< 2) = 4 * Second := by decide
  have hm : "failed after " ++ toString 3 ++ " attempts: " = "failed after 3 attempts: " := by
    decide
  have hrun : processFileWithRetry env file op st =
      match r1.err with
      | none =>
        (none,
          { world := r1.world
            w := st.w ++ r1.written
            trace := st.trace ++ [Event.invoke op.Name file.Name none] })
      | some e1 =>
        match r2.err with
        | none =>
          (none,
            { world := r2.world
              w := st.w ++ r1.written ++ r2.written
              trace := st.trace ++ [Event.invoke op.Name file.Name (some e1)] ++
                [Event.sleep (2 * Second)] ++ [Event.invoke op.Name file.Name none] })
        | some e2 =>
          match r3.err with
          | none =>
            (none,
              { world := r3.world
                w := st.w ++ r1.written ++ r2.written ++ r3.written
                trace := st.trace ++ [Event.invoke op.Name file.Name (some e1)] ++
                  [Event.sleep (2 * Second)] ++ [Event.invoke op.Name file.Name (some e2)] ++
                  [Event.sleep (4 * Second)] ++ [Event.invoke op.Name file.Name none] })
          | some e3 =>
            (some ("failed after 3 attempts: " ++ e3),
              { world := r3.world
                w := st.w ++ r1.written ++ r2.written ++ r3.written
                trace := st.trace ++ [Event.invoke op.Name file.Name (some e1)] ++
                  [Event.sleep (2 * Second)] ++ [Event.invoke op.Name file.Name (some e2)] ++
                  [Event.sleep (4 * Second)] ++ [Event.invoke op.Name file.Name (some e3)] }) := by
    simp only [processFileWithRetry, maxRetries, retryLoop, gt_iff_lt, lt_self_iff_false, if_false,
      zero_add, Nat.lt_one_iff, Nat.reduceAdd, Nat.lt_add_one, Nat.zero_lt_two, if_true,
      timeSleep, hs1, hs2, fmtErr, hm]
    cases h1 : r1.err with
    | none => simp only [r1] at h1; simp only [h1]
    | some e1 =>
      simp only [r1] at h1
      simp only [h1]
      cases h2 : r2.err with
      | none => simp only [r2, r1] at h2; simp only [h2]
      | some e2 =>
        simp only [r2, r1] at h2
        simp only [h2]
        cases h3 : r3.err with
        | none => simp only [r3, r2, r1] at h3; simp only [h3]
        | some e3 => simp only [r3, r2, r1] at h3; simp only [h3]
  refine ⟨?_, ?_, ?_, ?_, ?_⟩
  · rw [hrun]
    cases h1 : r1.err with
    | none => simp
    | some e1 =>
      cases h2 : r2.err with
      | none => simp
      | some e2 =>
        cases h3 : r3.err <;> simp
  · intro h1
    rw [hrun, h1]
  · intro e1 h1 h2
    rw [hrun, h1]
    simp only [h2]
    simp
  · intro e1 e2 h1 h2 h3
    rw [hrun, h1]
    simp only [h2, h3]
    simp
  · intro e1 e2 e3 h1 h2 h3
    rw [hrun, h1]
    simp only [h2, h3]
    simp

/-- Witness for C3 on the registered `attachments` operation, which fails on
every invocation. -/
theorem processFileWithRetry_always_failing_witness :
    (∀ f tok s, (attachmentsOp.ProcessFile f tok s).err ≠ none) ∧
    ∃ e1 e2 e3 : String,
      (processFileWithRetry quietEnv channelsFile attachmentsOp emptySt).2.trace = emptySt.trace ++
        [Event.invoke attachmentsOp.Name channelsFile.Name (some e1), Event.sleep (2 * Second),
         Event.invoke attachmentsOp.Name channelsFile.Name (some e2), Event.sleep (4 * Second),
         Event.invoke attachmentsOp.Name channelsFile.Name (some e3)] ∧
      totalSleep (processFileWithRetry quietEnv channelsFile attachmentsOp emptySt).2.trace =
        totalSleep emptySt.trace + 6 * Second ∧
      (processFileWithRetry quietEnv channelsFile attachmentsOp emptySt).1 =
        some ("failed after 3 attempts: " ++ e3) :=
  ⟨fun _ _ _ => by simp [attachmentsOp, processAttachment],
   processFileWithRetry_always_failing quietEnv channelsFile attachmentsOp emptySt
     (fun _ _ _ => by simp [attachmentsOp, processAttachment])⟩

/-- Witness for C5 (amended) on `users.json` and the operations registered by
`fetchCombined`. -/
theorem opsLoop_dispatch_witness :
    emptyPass.processedFiles.contains usersFile.Name = false ∧
    ∃ new : List Event,
      (opsLoop quietEnv usersFile registeredOps emptyPass).st.trace =
        emptyPass.st.trace ++ new ∧
      (∀ d ∈ dispatches new, d.2.1 = usersFile.Name) ∧
      ∃ errs : List String,
        ((dispatches new).map (fun d => d.2.2) = errs.map some ∧
          (dispatches new).map (fun d => d.1) =
            (registeredOps.filter (fun op => targets op usersFile.Name)).map
              (fun op => op.Name) ∧
          (opsLoop quietEnv usersFile registeredOps emptyPass).processedFiles.contains
            usersFile.Name = false) ∨
        ((dispatches new).map (fun d => d.2.2) = errs.map some ++ [none] ∧
          (dispatches new).map (fun d => d.1) <+:
            (registeredOps.filter (fun op => targets op usersFile.Name)).map
              (fun op => op.Name) ∧
          (opsLoop quietEnv usersFile registeredOps emptyPass).processedFiles.contains
            usersFile.Name = true) :=
  ⟨by decide, opsLoop_dispatch quietEnv usersFile registeredOps emptyPass (by decide)⟩

/-- C5 (counterexample): with the registered `profile-pics` and `attachments`
operations, both of which fail, the single entry `users.json` is dispatched to
both operations, and `ProcessFile` is invoked on it six times. -/
theorem dispatch_to_two_operations :
    dispatches (ProcessZipArchive quietEnv (Except.ok [usersFile]) none
        [profilePicsOp, attachmentsOp] ()).2.trace =
      [("profile-pics", "users.json",
          some "failed after 3 attempts: processProfilePics not implemented"),
       ("attachments", "users.json",
          some "failed after 3 attempts: processAttachment not implemented")] ∧
    (invocations (ProcessZipArchive quietEnv (Except.ok [usersFile]) none
        [profilePicsOp, attachmentsOp] ()).2.trace).length = 6 ∧
    ¬ (dispatches (ProcessZipArchive quietEnv (Except.ok [usersFile]) none
        [profilePicsOp, attachmentsOp] ()).2.trace).length ≤ 1 := by
  decide

/-- C1 (failing input): on an archive with `users.json` and `channels.json`,
`fetchCombined` dispatches `users.json` to the `emails` operation, which
returns success without writing; the entry is then neither processed by another
operation nor copied, and the destination holds `channels.json` only. -/
theorem fetchCombined_drops_users_json :
    usersFile.Name = "users.json" ∧
    usersFile.Name ∉ (fetchCombined quietEnv (Except.ok [usersFile, channelsFile]) none "" ""
        ()).2.w.map (fun e => e.Header.Name) ∧
    (fetchCombined quietEnv (Except.ok [usersFile, channelsFile]) none "" "" ()).2.w.map
        (fun e => e.Header.Name) = ["channels.json"] ∧
    dispatches (fetchCombined quietEnv (Except.ok [usersFile, channelsFile]) none "" "" ()).2.trace =
      [("emails", "users.json", none),
       ("attachments", "channels.json",
          some "failed after 3 attempts: processAttachment not implemented")] := by
  decide

/-- C2 (failing input): `copyFileToOutput` on an entry stored uncompressed and
modified at 1700000000 writes an entry with the zero modification time and
method Deflate, in `ProcessZipArchive` too, while the copy branch of
`fetchProfilePics` keeps the source header. -/
theorem copyFileToOutput_resets_metadata :
    channelsFile.Header = { Name := "channels.json", Modified := 1700000000, Method := Store } ∧
    (copyFileToOutput quietEnv channelsFile emptySt).1 = none ∧
    (copyFileToOutput quietEnv channelsFile emptySt).2.w =
      [{ Header := { Name := "channels.json", Modified := 0, Method := Deflate },
         Content := [91, 93] }] ∧
    (ProcessZipArchive quietEnv (Except.ok [channelsFile]) none [] ()).2.w =
      [{ Header := { Name := "channels.json", Modified := 0, Method := Deflate },
         Content := [91, 93] }] ∧
    (ProcessZipArchive quietEnv (Except.ok [channelsFile]) none [] ()).2.w.map
      (fun e => e.Header) ≠ [channelsFile.Header] ∧
    (fetchProfilePics quietEnv (Except.ok [channelsFile]) none ()).2.w =
      [{ Header := { Name := "channels.json", Modified := 1700000000, Method := Store },
         Content := [91, 93] }] := by
  decide

/-- C8 (counterexample): an operation that creates the entry and then fails is
retried twice and followed by the verbatim copy; the destination holds four
entries named `users.json`. -/
theorem duplicate_entries_after_failed_writes :
    ([usersFile].map ZipFile.Name).Nodup ∧
    (ProcessZipArchive quietEnv (Except.ok [usersFile]) none [flakyRewriteOp] ()).2.w.map
        (fun e => e.Header.Name) = ["users.json", "users.json", "users.json", "users.json"] ∧
    nameCount "users.json"
      (ProcessZipArchive quietEnv (Except.ok [usersFile]) none [flakyRewriteOp] ()).2.w = 4 ∧
    ¬ (∀ g ∈ [usersFile], nameCount g.Name
      (ProcessZipArchive quietEnv (Except.ok [usersFile]) none [flakyRewriteOp] ()).2.w ≤ 1) := by
  decide

theorem rewriteOps_fail_silently :
    ∀ op ∈ [rewriteOp, attachmentsOp], ∀ (f : ZipFile) (tok : String) (s : Unit),
      (op.ProcessFile f tok s).err ≠ none → (op.ProcessFile f tok s).written = [] := by
  intro op hop f tok s herr
  simp only [List.mem_cons, List.mem_singleton, List.not_mem_nil, or_false] at hop
  rcases hop with rfl | rfl
  · exact absurd rfl herr
  · rfl

theorem rewriteOps_write_once (files : List ZipFile) :
    ∀ op ∈ [rewriteOp, attachmentsOp], ∀ (f : ZipFile) (tok : String) (s : Unit),
      (op.ProcessFile f tok s).err = none →
      ∀ g ∈ files, nameCount g.Name (op.ProcessFile f tok s).written ≤
        if g.Name = f.Name then 1 else 0 := by
  intro op hop f tok s herr g _
  simp only [List.mem_cons, List.mem_singleton, List.not_mem_nil, or_false] at hop
  rcases hop with rfl | rfl
  · by_cases h : g.Name = f.Name
    · simp [rewriteOp, nameCount, h]
    · have h2 : ¬ (f.Name = g.Name) := fun e => h e.symm
      simp [rewriteOp, nameCount, h, h2]
  · simp [attachmentsOp, processAttachment] at herr

/-- Witness for C8 (amended): an operation that rewrites `users.json` on
success, followed by the registered `attachments` operation. -/
theorem ProcessZipArchive_no_duplicate_names_witness :
    ([usersFile, channelsFile].map ZipFile.Name).Nodup ∧
    ∀ g ∈ [usersFile, channelsFile],
      nameCount g.Name
        (ProcessZipArchive quietEnv (Except.ok [usersFile, channelsFile]) none
          [rewriteOp, attachmentsOp] ()).2.w ≤ 1 :=
  ⟨by decide,
   ProcessZipArchive_no_duplicate_names quietEnv [usersFile, channelsFile]
     [rewriteOp, attachmentsOp] () (by decide) rewriteOps_fail_silently
     (rewriteOps_write_once [usersFile, channelsFile])⟩

/-- Witness for C4: an operation that fails twice and succeeds in its third
invocation. -/
theorem processFileWithRetry_result_witness :
    processFileWithRetry flakyDiskEnv usersFile thirdTimeOp freshDiskSt =
      (none,
        { world := 3
          w := []
          trace :=
            [Event.invoke "emails" "users.json" (some "timeout"), Event.sleep (2 * Second),
             Event.invoke "emails" "users.json" (some "timeout"), Event.sleep (4 * Second),
             Event.invoke "emails" "users.json" none] }) :=
  (processFileWithRetry_result flakyDiskEnv usersFile thirdTimeOp freshDiskSt).2.2.2.1
    "timeout" "timeout" rfl rfl rfl

/-- Witness for C10 (amended): the record of `U1` with the URL
`https://avatars.slack-edge.com/U1.jpg` gives the path and the entry
`profile_pictures/U1.jpg`. -/
theorem downloadPictures_downloaded_record_witness :
    hasPrefix u1Url avatarPrefix = true ∧ hasSuffix u1Url ".jpg" = true ∧
    "profile_pictures/" ++ "U1" ++ ".jpg" = "profile_pictures/U1.jpg" ∧
    "." ++ lastPart u1Url = ".jpg" ∧
    (∃ fields1 profile1 : Obj,
      (usersLoop pictureEnv [some u1Record] emptySt).1[0]? = some (some fields1) ∧
      fields1.lookup "profile" = some (JSON.obj profile1) ∧
      profile1.lookup "image_path" = some (JSON.str ("profile_pictures/" ++ "U1" ++ ".jpg")) ∧
      (∀ k, k ≠ "image_path" → profile1.lookup k = u1Profile.lookup k) ∧
      (∀ k, k ≠ "profile" → fields1.lookup k = u1Record.lookup k)) ∧
    (usersLoop pictureEnv ([some u1Record].take (0 + 1)) emptySt).2.w =
      (usersLoop pictureEnv ([some u1Record].take 0) emptySt).2.w ++
        [{ Header := { Name := "profile_pictures/" ++ "U1" ++ ".jpg", Modified := 0, Method := Deflate },
           Content := okResponse.Body.data }] ∧
    ({ Header := { Name := "profile_pictures/" ++ "U1" ++ ".jpg", Modified := 0, Method := Deflate },
       Content := okResponse.Body.data } : OutEntry) ∈
      (downloadPictures pictureEnv usersReader emptySt).2.w :=
  ⟨by decide, by decide, by decide,
   downloadPictures_downloaded_record pictureEnv usersReader [some u1Record] emptySt 0
     u1Record u1Profile "U1" u1Url ".jpg" okResponse () () ()
     rfl rfl rfl rfl rfl (by decide) (Or.inl rfl) (by decide) rfl rfl rfl rfl rfl
     (fun _ => rfl)⟩

/-- C10 (counterexample): `fetchProfilePics` on an archive with `channels.json`
and `users.json`.  The download for `U1` answers 200, and `w.Create` for the
picture fails because the entry `channels.json` cannot be closed on the full
disk.  The run goes on and returns normally; the record handed to the encoder
has `image_path` set to `profile_pictures/U1.jpg`, and the destination has no
entry of that name. -/
theorem image_path_without_entry :
    (flakyDiskEnv.httpDo u1Url 1).1.toOption.map (fun r => r.StatusCode) = some 200 ∧
    (fetchProfilePics flakyDiskEnv (Except.ok [channelsFile, u1UsersFile]) none 0).1 = none ∧
    (fetchProfilePics flakyDiskEnv (Except.ok [channelsFile, u1UsersFile]) none 0).2.w.map
      (fun e => e.Header.Name) = ["channels.json", "users.json"] ∧
    "profile_pictures/U1.jpg" ∉
      (fetchProfilePics flakyDiskEnv (Except.ok [channelsFile, u1UsersFile]) none 0).2.w.map
        (fun e => e.Header.Name) ∧
    (usersLoop flakyDiskEnv [some u1Record]
      (picsLoop flakyDiskEnv [channelsFile] freshDiskSt).2).1 = [some u1RecordWithPath] :=
  ⟨by decide, by decide, by decide, by decide, rfl⟩

/-- Witness for C7 (amended): the picture of `U1` is written and creating
`users.json` fails. -/
theorem downloadPictures_error_effect_witness :
    (downloadPictures flakyDiskEnv usersReader freshDiskSt).1 ≠ none ∧
    flakyDiskEnv.decode usersReader = Except.ok [some u1Record] ∧
    (usersLoop flakyDiskEnv [some u1Record] freshDiskSt).2.w.map (fun e => e.Header.Name) =
      ["profile_pictures/U1.jpg"] ∧
    ((∃ e, flakyDiskEnv.decode usersReader = Except.error e ∧
        downloadPictures flakyDiskEnv usersReader freshDiskSt = (some e, freshDiskSt)) ∨
     (∃ data, flakyDiskEnv.decode usersReader = Except.ok data ∧
        ∃ extra : List OutEntry, extra.length ≤ 1 ∧ (∀ x ∈ extra, x.Header.Name = "users.json") ∧
          (downloadPictures flakyDiskEnv usersReader freshDiskSt).2.w =
            (usersLoop flakyDiskEnv data freshDiskSt).2.w ++ extra)) ∧
    ∃ again : List OutEntry,
      (downloadPictures flakyDiskEnv usersReader
          (downloadPictures flakyDiskEnv usersReader freshDiskSt).2).2.w =
        (downloadPictures flakyDiskEnv usersReader freshDiskSt).2.w ++ again :=
  ⟨by decide, rfl, by decide,
   downloadPictures_error_effect flakyDiskEnv usersReader freshDiskSt (by decide)⟩

/-- C7 (counterexample): the picture of `U1` is downloaded and written, then
creating `users.json` fails: `downloadPictures` returns an error and the
destination has gained the picture entry.  Invoked again from that state it
succeeds, and the destination holds the picture entry twice, whereas a single
successful invocation writes it once. -/
theorem downloadPictures_writes_before_failing :
    (downloadPictures flakyDiskEnv usersReader freshDiskSt).1 =
      some "Failed to write users.json back to archive" ∧
    (downloadPictures flakyDiskEnv usersReader freshDiskSt).2.w.map (fun e => e.Header.Name) =
      ["profile_pictures/U1.jpg"] ∧
    (downloadPictures flakyDiskEnv usersReader freshDiskSt).2.w ≠ freshDiskSt.w ∧
    (downloadPictures flakyDiskEnv usersReader
      (downloadPictures flakyDiskEnv usersReader freshDiskSt).2).1 = none ∧
    (downloadPictures flakyDiskEnv usersReader
        (downloadPictures flakyDiskEnv usersReader freshDiskSt).2).2.w.map (fun e => e.Header.Name) =
      ["profile_pictures/U1.jpg", "profile_pictures/U1.jpg", "users.json"] ∧
    (downloadPictures pictureEnv usersReader emptySt).1 = none ∧
    (downloadPictures pictureEnv usersReader emptySt).2.w.map (fun e => e.Header.Name) =
      ["profile_pictures/U1.jpg", "users.json"] := by
  decide

end SlackExporter
